import Mathlib

/-!
Shallow embedding of the baag workspace manager (workspace lifecycle,
metadata store, session orchestration and reconciliation), translated from
`src/lib/worktree-utils.mjs` (the version exporting `startWorktree` at
lines 732-923, `stopWorktree` at 1103-1202, `cleanupWorktrees` at
1545-1728 and `switchWorktree` at 1775-1825), the session orchestrator of
`src/lib/hooks-utils.mjs` (`createTmuxSession` lines 450-699,
`cleanupTmuxSession` lines 702-729), the git helpers of
`src/unnamed/part_003` (lines 1-198) and the config accessors of
`src/lib/config-utils.mjs`.

External tools (git, tmux, the filesystem) are modelled by an explicit
`World` state: the linked-worktree registry (`git worktree list`), the
directory entries under the workspace root, the `worktree.<name>.<key>`
configuration store, the set of live tmux sessions, the local branches,
the current branch and working directory.  Each `await $...` call either
succeeds deterministically with the effect the tool documents, or - for
the session orchestrator, whose error handling the spec describes - fails
at an injectable call index (`TmuxEnv.failAt`).  `git worktree remove`
without `--force` fails exactly on a worktree with uncommitted changes
(`World.dirty`); other failure modes of the external tools are not
modelled.
-/

namespace Baag

/-- JS truthiness of a string-or-null value (`null`, `undefined` and the
empty string are falsy). -/
def jsTruthy : Option String → Bool
  | none => false
  | some s => s ≠ ""

/-- JS `hay.includes(pat)`: substring test. -/
def strContains (hay pat : String) : Bool := decide (pat.data <:+: hay.data)

/-- JS `s.startsWith(pat)`. -/
def strStartsWith (s pat : String) : Bool := decide (pat.data <+: s.data)

/-- JS whitespace class `\s` (ASCII part, which is all the tool meets in
branch names). -/
def isWs (c : Char) : Bool := c = ' ' ∨ c = '\t' ∨ c = '\n' ∨ c = '\r'

/-- Collapse every run of whitespace into a single hyphen
(`replace(/\s+/g, '-')`). -/
def collapseRuns : List Char → List Char
  | [] => []
  | [c] => [if isWs c then '-' else c]
  | c1 :: c2 :: rest =>
    if isWs c1 ∧ isWs c2 then collapseRuns (c2 :: rest)
    else (if isWs c1 then '-' else c1) :: collapseRuns (c2 :: rest)

/-- JS `name.trim().replace(/\s+/g, '-')` as performed by `startWorktree`
on a CLI-provided name. -/
def normalizeName (s : String) : String :=
  String.mk (collapseRuns ((s.data.dropWhile isWs).reverse.dropWhile isWs).reverse)

/-- `path.basename`: the part of the path after the last `/`. -/
def basename (p : String) : String :=
  String.mk ((p.data.reverse.takeWhile (fun c => c ≠ '/')).reverse)

/-- First capture of `^worktree\.([^.]+)\.` applied to `worktree.` ++ `s`:
the part of `s` before its first dot. -/
def nsHead (s : String) : String :=
  String.mk (s.data.takeWhile (fun c => c ≠ '.'))

/-- First space-delimited word (`line.split(' ')` indexing). -/
def firstWord (s : String) : String :=
  String.mk (s.data.takeWhile (fun c => c ≠ ' '))

/-- `s.replace(/[^a-zA-Z0-9-]/g, '-')`, the tmux session-name sanitizer. -/
def sanitizeSession (s : String) : String :=
  String.mk (s.data.map (fun c => if c.isAlphanum ∨ c = '-' then c else '-'))

/-- `s.toLowerCase()`. -/
def lowerStr (s : String) : String := String.mk (s.data.map Char.toLower)

/-- `s.charAt(0).toUpperCase() + s.slice(1)`. -/
def capFirst (s : String) : String :=
  match s.data with
  | [] => ""
  | c :: cs => String.mk (c.toUpper :: cs)

/-- Keep the first occurrence of each element (JS `Set` insertion order). -/
def dedupFirst (l : List String) : List String :=
  l.foldl (fun acc x => if x ∈ acc then acc else acc ++ [x]) []

/-! ## The metadata store (git config `worktree.<name>.<key>`) -/

/-- The store: an association list from (workspace name, key) to value,
mirroring the repository-scoped `git config` section used by
`setWorktreeConfig` / `getWorktreeConfig` / `unsetWorktreeConfig`
(src/unnamed/part_003 lines 159-184). -/
abbrev Store := List ((String × String) × String)

/-- `git config --get worktree.<n>.<k>` (`null` when absent). -/
def getCfg : Store → String → String → Option String
  | [], _, _ => none
  | e :: es, n, k => if e.1 = (n, k) then some e.2 else getCfg es n k

/-- `git config --unset worktree.<n>.<k>` (no-op when absent). -/
def unsetCfg : Store → String → String → Store
  | [], _, _ => []
  | e :: es, n, k => if e.1 = (n, k) then unsetCfg es n k else e :: unsetCfg es n k

/-- `git config worktree.<n>.<k> <v>`: replace any existing value for the
key with `v` (the key holds a single value afterwards). -/
def setCfg (st : Store) (n k v : String) : Store :=
  unsetCfg st n k ++ [((n, k), v)]

/-! ## The world state -/

/-- One line of `git worktree list`: a linked working tree with its
checkout path, revision hash and branch label. -/
structure RegistryEntry where
  path : String
  hash : String
  branch : String
deriving Repr, DecidableEq

/-- The state of everything outside the process that the tool reads or
mutates. -/
structure World where
  /-- resolved `<repo>/.baag/worktrees` root (`getWorktreesDir`). -/
  wtDir : String
  /-- `git worktree list`, in listing order. -/
  registry : List RegistryEntry
  /-- names of the (non-empty) subdirectories of `wtDir`. -/
  dirs : List String
  /-- the `worktree.<name>.<key>` configuration store. -/
  store : Store
  /-- names of live tmux sessions. -/
  sessions : List String
  /-- local branches (`refs/heads/...`). -/
  branches : List String
  /-- `git branch --show-current` (`none`: the call failed; `some ""`:
  detached HEAD). -/
  currentBranch : Option String
  /-- the process working directory. -/
  cwd : String
  /-- names of workspaces with uncommitted changes (`git worktree remove`
  without `--force` refuses exactly these). -/
  dirty : List String
  /-- absolute paths that exist on disk (used for the origin-dir return). -/
  absDirs : List String
deriving Repr, DecidableEq

/-- The repository-local `.baag/config.json` fields the embedded
operations read (config-utils accessors; absent file = all `none`). -/
structure Config where
  baseBranch : Option String
  aiAgent : Option String
  branchPfx : Option String
  serverCommand : Option String
deriving Repr, DecidableEq

/-- `git worktree list` stdout: the lines joined with newlines
(`lines.join('\n')` shape of the real output). -/
def worktreeListLine (e : RegistryEntry) : String :=
  e.path ++ " " ++ e.hash ++ " [" ++ e.branch ++ "]"

/-- Join lines with newlines. -/
def joinLines : List String → String
  | [] => ""
  | [l] => l
  | l :: ls => l ++ "\n" ++ joinLines ls

def worktreeListOutput (reg : List RegistryEntry) : String :=
  joinLines (reg.map worktreeListLine)

/-- `worktreeExists` (src/unnamed/part_003 lines 139-147): substring test
of `worktreesDir + "/" + name` against the raw `git worktree list`
output. -/
def worktreeExists (w : World) (name : String) : Bool :=
  strContains (worktreeListOutput w.registry) (w.wtDir ++ "/" ++ name)

/-- `branchExists` (part_003 lines 42-49). -/
def branchExists (w : World) (b : String) : Bool := w.branches.contains b

/-- `isInWorktree` (part_003 lines 134-137). -/
def isInWorktree (w : World) : Bool := strContains w.cwd "/.baag/worktrees/"

/-! ## Config accessors (config-utils.mjs) -/

/-- `getBaseBranch`: `config.baseBranch || 'main'`. -/
def getBaseBranchCfg (cfg : Config) : String :=
  if jsTruthy cfg.baseBranch then cfg.baseBranch.getD "main" else "main"

/-- Stored `ai-agent` value: the configured agent (capitalised for display
then lower-cased for storage) or the `Claude` fallback
(hooks-utils lines 566-597 and 632). -/
def aiAgentStored (cfg : Config) : String :=
  if jsTruthy cfg.aiAgent then lowerStr (capFirst (cfg.aiAgent.getD ""))
  else lowerStr "Claude"

/-! ## The session orchestrator (hooks-utils.mjs `createTmuxSession`,
lines 450-699) -/

/-- Environment of one `createTmuxSession` run: `failAt = some k` makes
the k-th fallible external call (0-based, counting from the
`tmux new-session` call) throw; `none` lets every call succeed. -/
structure TmuxEnv where
  failAt : Option Nat
deriving Repr, DecidableEq

/-- `baag-` ++ sanitised workspace name (hooks-utils line 452). -/
def sessionNameOf (worktreeName : String) : String :=
  "baag-" ++ sanitizeSession worktreeName

/-- Pane-index assignment (hooks-utils lines 548-563): 3-pane layout when
a server is configured, else the 2-pane layout for either split
orientation. -/
structure PaneAssign where
  terminal : String
  ai : String
  server : Option String
deriving Repr, DecidableEq

def paneAssignment (hasServer horizontalSplit : Bool) : PaneAssign :=
  if hasServer then ⟨"0", "1", some "2"⟩
  else if horizontalSplit then ⟨"0", "1", none⟩
  else ⟨"0", "1", none⟩

/-- One step of the orchestrator body: a fallible external call or an
infallible metadata write (`setWorktreeConfig` swallows its errors). -/
inductive TStep where
  | call : (World → World) → TStep
  | write : (World → World) → TStep

/-- Run the steps; on the step whose call-index equals `failAt` the
exception propagates (second component `false`, world = state at the
throw). -/
def runSteps (failAt : Option Nat) : List TStep → Nat → World → World × Bool
  | [], _, w => (w, true)
  | TStep.write f :: rest, k, w => runSteps failAt rest k (f w)
  | TStep.call f :: rest, k, w =>
    if failAt = some k then (w, false) else runSteps failAt rest (k + 1) (f w)

/-- The body of `createTmuxSession` after the initial idempotent kill, as
the ordered list of its external calls and metadata writes.  Calls that
only talk to tmux panes (send-keys, list-windows, splits, ...) have no
effect on the modelled state.  `port` is the value flowing into the
function's fourth parameter (a port string, or whatever truthy value the
caller put there). -/
def tmuxSteps (cfg : Config) (worktreeName sessionName : String)
    (horizontalSplit : Bool) (port : Option String) : List TStep :=
  let hasServer := jsTruthy cfg.serverCommand && jsTruthy port
  let paneCount := if hasServer then 3 else 2
  let pa := paneAssignment hasServer horizontalSplit
  [TStep.call (fun w => { w with sessions := sessionName :: w.sessions }),
   -- tmux new-session -d (line 481)
   TStep.call id,   -- tmux has-session verify (line 485)
   TStep.call id,   -- tmux list-windows (line 489)
   TStep.call id]   -- send-keys cd in the initial pane (line 497)
  ++ (if hasServer then [TStep.call id, TStep.call id]   -- two splits (507, 511)
      else [TStep.call id])                              -- one split (520/522)
  ++ [TStep.call id]                                     -- tmux list-panes (534)
  ++ List.replicate paneCount (TStep.call id)            -- cd in each pane (543-545)
  ++ [TStep.call id,                                     -- send AI command (600)
      TStep.call id]                                     -- clear terminal pane (606)
  ++ (if hasServer then
        [TStep.call id,   -- export BAAG_PORT (615)
         TStep.call id,   -- server command (616)
         TStep.write (fun w =>
           let st := setCfg w.store worktreeName "server-port" (port.getD "")
           let st := setCfg st worktreeName "server-pane" (pa.server.getD "")
           { w with store := st })]  -- lines 619-620
      else [])
  ++ [TStep.call id,     -- tmux select-pane, focus terminal (624)
      TStep.write (fun w =>
        let st := setCfg w.store worktreeName "tmux-session" sessionName
        let st := setCfg st worktreeName "ai-pane" pa.ai
        let st := setCfg st worktreeName "ai-agent" (aiAgentStored cfg)
        { w with store := st })]                         -- lines 630-632

/-- The catch block (hooks-utils lines 682-698): kill the session if it
still exists, fall back to a plain directory change, report failure. -/
def tmuxCatch (w : World) (sessionName worktreePath : String) : World × Bool :=
  ({ w with sessions := w.sessions.filter (fun s => s ≠ sessionName),
            cwd := worktreePath }, false)

/-- `createTmuxSession` (hooks-utils lines 450-699). -/
def createTmuxSession (w : World) (cfg : Config) (env : TmuxEnv)
    (worktreeName worktreePath : String) (horizontalSplit : Bool)
    (port : Option String) : World × Bool :=
  let sessionName := sessionNameOf worktreeName
  -- idempotent pre-kill of an existing session with the same name (466-474)
  let w0 := { w with sessions := w.sessions.filter (fun s => s ≠ sessionName) }
  match runSteps env.failAt
      (tmuxSteps cfg worktreeName sessionName horizontalSplit port) 0 w0 with
  | (w1, true) => (w1, true)
  | (w1, false) => tmuxCatch w1 sessionName worktreePath

/-- `cleanupTmuxSession` (hooks-utils lines 702-729): kill the recorded
session if alive and purge the five session keys; skips everything when
no `tmux-session` key is recorded. -/
def cleanupTmuxSession (w : World) (worktreeName : String) : World :=
  let sessionName := getCfg w.store worktreeName "tmux-session"
  if jsTruthy sessionName then
    let s := sessionName.getD ""
    let w := if w.sessions.contains s then
        { w with sessions := w.sessions.filter (fun x => x ≠ s) }
      else w
    let st := unsetCfg w.store worktreeName "tmux-session"
    let st := unsetCfg st worktreeName "ai-pane"
    let st := unsetCfg st worktreeName "ai-agent"
    let st := unsetCfg st worktreeName "server-port"
    let st := unsetCfg st worktreeName "server-pane"
    { w with store := st }
  else w

/-! ## Lifecycle: start (worktree-utils.mjs lines 732-923) -/

/-- Why `startWorktree` terminated. -/
inductive StartExit where
  /-- normal return (including the tmux-failure fallback path). -/
  | ok
  /-- `process.exit(1)`: name conflict (line 813-816). -/
  | conflict
  /-- `process.exit(1)`: `--base` branch does not exist (lines 822-825). -/
  | badBase
  /-- `process.exit(1)`: the `git worktree add` call failed (lines 918-922). -/
  | addFailed
deriving Repr, DecidableEq

/-- Per-invocation environment of `startWorktree`: whether
`checkTmuxClaude()` holds, the orchestrator's failure injection, and the
value the call site passes into `createTmuxSession`'s fourth (port)
parameter. -/
structure StartEnv where
  tmuxClaudeOk : Bool
  tmuxEnv : TmuxEnv
  port : Option String
deriving Repr, DecidableEq

/-- Branch-prefix application (lines 802-811): prepend `<pfx>/` unless the
name already starts with it. -/
def applyBranchPfx (cfg : Config) (name : String) : String :=
  if jsTruthy cfg.branchPfx then
    let p := cfg.branchPfx.getD ""
    if strStartsWith name (p ++ "/") then name else p ++ "/" ++ name
  else name

/-- Base-branch resolution of `startWorktree` (lines 818-846): explicit
flag (validated, `error` = `process.exit(1)`), else the current branch
when truthy, else the configured base branch when it exists, else the
literal `"main"`. -/
def resolveBaseBranch (w : World) (cfg : Config) (flag : Option String) :
    Except Unit String :=
  match flag with
  | some b => if branchExists w b then Except.ok b else Except.error ()
  | none =>
    if jsTruthy w.currentBranch then Except.ok (w.currentBranch.getD "")
    else
      let conf := getBaseBranchCfg cfg
      if conf ≠ "" && branchExists w conf then Except.ok conf
      else Except.ok "main"

/-- Revision hash shown by `git worktree list` for a fresh worktree
(its value is irrelevant to the embedded logic). -/
def gitHash : String := "0abc123"

/-- Tail of `startWorktree` after the `git worktree add` succeeded
(lines 866-917): store the base and origin keys, then either hand off to
the session orchestrator (which on failure has already fallen back to a
plain chdir) or change directory. -/
def startFinish (w : World) (cfg : Config) (env : StartEnv)
    (name worktreePath base : String) (horizontalSplit : Bool) :
    World × StartExit :=
  let st := setCfg w.store name "base" base
  let st := setCfg st name "origin-dir" w.cwd
  let st := setCfg st name "origin-branch" base
  let w := { w with store := st }
  if env.tmuxClaudeOk then
    let r := createTmuxSession w cfg env.tmuxEnv name worktreePath
      horizontalSplit env.port
    (r.1, StartExit.ok)
  else
    ({ w with cwd := worktreePath }, StartExit.ok)

/-- `startWorktree` (lines 732-923) for a CLI-provided name.  The
`git worktree add` call is modelled to fail when the target directory
already exists or (for the branch-and-create form) the base branch is
missing; other failure modes of the external call are not modelled. -/
def startWorktree (w : World) (cfg : Config) (env : StartEnv)
    (rawName : String) (baseFlag : Option String) (horizontalSplit : Bool) :
    World × StartExit :=
  let name := normalizeName rawName
  let finalBranchName := applyBranchPfx cfg name
  if worktreeExists w finalBranchName then (w, StartExit.conflict)
  else
    match resolveBaseBranch w cfg baseFlag with
    | Except.error _ => (w, StartExit.badBase)
    | Except.ok currentBaseBranch =>
      let worktreePath := w.wtDir ++ "/" ++ name
      if name ∈ w.dirs then (w, StartExit.addFailed)
      else if branchExists w finalBranchName then
        -- git worktree add <path> <branch> (existing branch, line 860)
        startFinish
          { w with registry := w.registry ++ [⟨worktreePath, gitHash, finalBranchName⟩],
                   dirs := w.dirs ++ [name] }
          cfg env name worktreePath currentBaseBranch horizontalSplit
      else if branchExists w currentBaseBranch then
        -- git worktree add -b <branch> <path> <base> (line 863)
        startFinish
          { w with branches := w.branches ++ [finalBranchName],
                   registry := w.registry ++ [⟨worktreePath, gitHash, finalBranchName⟩],
                   dirs := w.dirs ++ [name] }
          cfg env name worktreePath currentBaseBranch horizontalSplit
      else (w, StartExit.addFailed)

/-! ## Lifecycle: stop (worktree-utils.mjs lines 1103-1202) -/

/-- `stopWorktree`; the second component is `true` when the command
exited non-zero (`process.exit(1)`). -/
def stopWorktree (w : World) (nameArg : Option String) (force : Bool) :
    World × Bool :=
  let name? : Option String :=
    match nameArg with
    | some n => some n
    | none => if isInWorktree w then some (basename w.cwd) else none
  match name? with
  | none => (w, true)                  -- no name and not in a worktree (1122-1124)
  | some name =>
    if ¬ worktreeExists w name then (w, true)   -- does not exist (1128-1131)
    else
      -- tmux teardown happens before the removal attempt (line 1136)
      let w := cleanupTmuxSession w name
      let worktreePath := w.wtDir ++ "/" ++ name
      if ¬ force ∧ name ∈ w.dirty then
        -- `git worktree remove` without --force refuses a dirty worktree;
        -- the catch block surfaces the error and exits 1 (1197-1201)
        (w, true)
      else
        let w := { w with
          registry := w.registry.filter (fun e => e.path ≠ worktreePath),
          dirs := w.dirs.filter (fun d => d ≠ name),
          dirty := w.dirty.filter (fun d => d ≠ name) }
        let originDir := getCfg w.store name "origin-dir"
        let originBranch := getCfg w.store name "origin-branch"
        let st := unsetCfg w.store name "base"
        let st := unsetCfg st name "origin-dir"
        let st := unsetCfg st name "origin-branch"
        let st := unsetCfg st name "session-name"
        let st := unsetCfg st name "session-description"
        let st := unsetCfg st name "ai-pane"
        let st := unsetCfg st name "ai-agent"
        let w := { w with store := st }   -- lines 1165-1171
        -- return to the origin directory and branch (1176-1196)
        let w :=
          if jsTruthy originDir ∧ (originDir.getD "") ∈ w.absDirs then
            let w := { w with cwd := originDir.getD "" }
            if jsTruthy originBranch ∧ w.currentBranch ≠ originBranch ∧
                branchExists w (originBranch.getD "") then
              { w with currentBranch := originBranch }
            else w
          else w
        (w, false)

/-! ## Lifecycle: switch (worktree-utils.mjs lines 1775-1893) -/

/-- The workspace names the hint of `switchWorktree` is built from
(lines 1800-1818): unique first dot-segments of the metadata-store key
names, exactly as the `^worktree\.([^.]+)\.` match over the
`git config --get-regexp` output produces them. -/
def storeNamespaces (st : Store) : List String :=
  dedupFirst (st.map (fun e => nsHead e.1.1))

/-- Result of `switchWorktree`: final world, whether the command exited
non-zero, and (on the not-found path) the list of known workspace names
it printed as the remediation hint. -/
structure SwitchResult where
  world : World
  exited : Bool
  hint : Option (List String)
deriving Repr, DecidableEq

/-- Shared tail of `switchWorktree` (lines 1881-1892): create a fresh
session for the existing worktree, or plain-chdir when tmux or the agent
is unavailable. -/
def switchCreate (w : World) (cfg : Config) (env : StartEnv)
    (name worktreePath : String) : SwitchResult :=
  if env.tmuxClaudeOk then
    -- createTmuxSession(name, worktreePath, false): port slot stays null
    let r := createTmuxSession w cfg env.tmuxEnv name worktreePath false none
    ⟨r.1, false, none⟩
  else
    ⟨{ w with cwd := worktreePath }, false, none⟩

/-- `switchWorktree` (lines 1775-1893). -/
def switchWorktree (w : World) (cfg : Config) (env : StartEnv)
    (name : String) : SwitchResult :=
  if ¬ worktreeExists w name then
    -- not found: print the hint gathered from the metadata store and exit 1
    ⟨w, true, some (storeNamespaces w.store)⟩
  else
    let worktreePath := w.wtDir ++ "/" ++ name
    let sessionName := getCfg w.store name "tmux-session"
    if jsTruthy sessionName then
      if w.sessions.contains (sessionName.getD "") then
        -- live session: attach (no modelled state change) and return
        ⟨w, false, none⟩
      else
        -- dead session: clean it up, then create a new one (1870-1875)
        switchCreate (cleanupTmuxSession w name) cfg env name worktreePath
    else
      switchCreate w cfg env name worktreePath

/-! ## Reconciliation: cleanup (worktree-utils.mjs lines 1545-1728) -/

inductive TaskKind where
  | directory
  | config
  | tmuxConfig
deriving Repr, DecidableEq

/-- A CleanupTask as pushed by the detection phase: its kind, the
workspace name it targets, and (for directory tasks) the path, (for tmux
tasks) the recorded session name. -/
structure CleanupTask where
  kind : TaskKind
  name : String
  tpath : String
  sess : String
deriving Repr, DecidableEq

/-- Names of worktrees `git worktree list` reports under the workspace
root (lines 1558-1568): path contains the root as a substring, name =
`path.basename`. -/
def activeWorktreeNames (w : World) : List String :=
  w.registry.filterMap (fun e =>
    if strContains e.path w.wtDir then some (basename e.path) else none)

/-- Orphaned-directory detection (lines 1573-1585): every directory entry
under the root whose name is not among the active worktree names. -/
def dirCleanupTasks (w : World) : List CleanupTask :=
  w.dirs.filterMap (fun d =>
    if (activeWorktreeNames w).contains d then none
    else some ⟨TaskKind.directory, d, w.wtDir ++ "/" ++ d, ""⟩)

/-- Orphaned-config detection (lines 1591-1617): metadata namespaces with
no corresponding worktree. -/
def configCleanupTasks (w : World) : List CleanupTask :=
  (storeNamespaces w.store).filterMap (fun n =>
    if worktreeExists w n then none
    else some ⟨TaskKind.config, n, "", ""⟩)

/-- Does the key `worktree.<n>.<k>` match
`^worktree\.(.*)\.tmux-session$`, and if so what does the (greedy) group
capture? -/
def tmuxKeyMatch (n k : String) : Option String :=
  let keyData := ("worktree." ++ n ++ "." ++ k).data
  if decide (".tmux-session".data <:+ keyData) then
    some (String.mk ((keyData.drop 9).take (keyData.length - 9 - 13)))
  else none

/-- Dead/stale tmux-session detection (lines 1620-1651): a task for every
`tmux-session` key whose session is dead, or alive but recorded for a
worktree that no longer exists. -/
def tmuxCleanupTasks (w : World) : List CleanupTask :=
  w.store.filterMap (fun e =>
    match tmuxKeyMatch e.1.1 e.1.2 with
    | none => none
    | some wtName =>
      let sess := firstWord e.2
      if w.sessions.contains sess then
        if worktreeExists w wtName then none
        else some ⟨TaskKind.tmuxConfig, wtName, "", sess⟩
      else some ⟨TaskKind.tmuxConfig, wtName, "", sess⟩)

/-- The detection phase of `cleanupWorktrees`, in source order. -/
def cleanupTasks (w : World) : List CleanupTask :=
  dirCleanupTasks w ++ configCleanupTasks w ++ tmuxCleanupTasks w

/-- The eight keys the `config` task unsets (lines 1689-1712). -/
def eightFields : List String :=
  ["base", "origin-dir", "origin-branch", "tmux-session",
   "session-name", "session-description", "ai-pane", "ai-agent"]

/-- Apply one task (lines 1679-1721). -/
def applyCleanupTask (w : World) (t : CleanupTask) : World :=
  match t.kind with
  | TaskKind.directory =>
    { w with dirs := w.dirs.filter (fun d => d ≠ t.name) }
  | TaskKind.config =>
    { w with store := eightFields.foldl (fun st f => unsetCfg st t.name f) w.store }
  | TaskKind.tmuxConfig =>
    { w with store := unsetCfg w.store t.name "tmux-session" }

/-- `cleanupWorktrees` (lines 1545-1728): detect, ask for confirmation,
and on `y` perform every task in order. -/
def cleanupWorktrees (w : World) (confirm : Bool) : World :=
  let tasks := cleanupTasks w
  if tasks.isEmpty then w
  else if ¬ confirm then w
  else tasks.foldl applyCleanupTask w

/-! ## Shared concrete instances for witnesses and counterexamples -/

/-! ## Proof-layer views of an orchestrator run -/

/-- The state effect of one step. -/
def stepEffect : TStep → World → World
  | TStep.call f => f
  | TStep.write f => f

/-- Apply all steps in order (the effect of a run in which no call
fails). -/
def stepsApply (steps : List TStep) (w : World) : World :=
  steps.foldl (fun w t => stepEffect t w) w

/-- Number of fallible calls in a step list. -/
def countCalls : List TStep → Nat
  | [] => 0
  | TStep.call _ :: rest => countCalls rest + 1
  | TStep.write _ :: rest => countCalls rest

/-- The steps executed strictly before the (m+1)-th fallible call
throws. -/
def takeToCall (m : Nat) : List TStep → List TStep
  | [] => []
  | TStep.write f :: rest => TStep.write f :: takeToCall m rest
  | TStep.call f :: rest =>
    match m with
    | 0 => []
    | Nat.succ m' => TStep.call f :: takeToCall m' rest

/-- The two server metadata writes (hooks-utils lines 619-620). -/
def serverStore (n : String) (port : Option String) (st : Store) : Store :=
  setCfg (setCfg st n "server-port" (port.getD "")) n "server-pane" "2"

/-- The three session metadata writes (hooks-utils lines 630-632). -/
def sessionStore (cfg : Config) (n sn : String) (st : Store) : Store :=
  setCfg (setCfg (setCfg st n "tmux-session" sn) n "ai-pane" "1")
    n "ai-agent" (aiAgentStored cfg)

/-- A step leaves the view `g` of the world unchanged. -/
def stepKeeps {α : Type} (g : World → α) (t : TStep) : Prop :=
  ∀ w, g (stepEffect t w) = g w

/-- The base branch `startWorktree` resolves when no `--base` flag is
given (this path never exits). -/
def resolveBaseNoFlag (w : World) (cfg : Config) : String :=
  if jsTruthy w.currentBranch then w.currentBranch.getD ""
  else
    let conf := getBaseBranchCfg cfg
    if conf ≠ "" && branchExists w conf then conf else "main"

/-- The three metadata writes of a successful `startWorktree`
(worktree-utils lines 866-871). -/
def startStore (st : Store) (n base cwd : String) : Store :=
  setCfg (setCfg (setCfg st n "base" base) n "origin-dir" cwd)
    n "origin-branch" base

def noCfg : Config := ⟨none, none, none, none⟩

def plainEnv : StartEnv := ⟨false, ⟨none⟩, none⟩

/-- A repository with one workspace `foo` that has a live session, full
session metadata and uncommitted changes. -/
def c1World : World :=
  ⟨"/r/.baag/worktrees",
   [⟨"/r", "h0", "main"⟩, ⟨"/r/.baag/worktrees/foo", "h1", "foo"⟩],
   ["foo"],
   [(("foo", "base"), "main"), (("foo", "origin-dir"), "/r"),
    (("foo", "origin-branch"), "main"), (("foo", "tmux-session"), "baag-foo"),
    (("foo", "ai-pane"), "1"), (("foo", "ai-agent"), "claude")],
   ["baag-foo"], ["main", "foo"], some "main", "/r", ["foo"], ["/r"]⟩

/-- World for C8: the caller sits on `feature-y` and passes
`--base main`. -/
def c8World : World :=
  ⟨"/r/.baag/worktrees", [⟨"/r", "h0", "feature-y"⟩], [], [], [],
   ["main", "feature-y"], some "feature-y", "/r", [], ["/r"]⟩

/-- World for C10: a registered workspace `foo-bar` and no workspace
named `foo`. -/
def c10World : World :=
  ⟨"/r/.baag/worktrees",
   [⟨"/r", "h0", "main"⟩, ⟨"/r/.baag/worktrees/foo-bar", "h1", "foo-bar"⟩],
   ["foo-bar"], [], [], ["main", "foo-bar"], some "main", "/r", [], ["/r"]⟩

/-- World for C7: registry knows workspace `bar`, the store only holds a
namespace `baz`. -/
def c7World : World :=
  ⟨"/r/.baag/worktrees",
   [⟨"/r", "h0", "main"⟩, ⟨"/r/.baag/worktrees/bar", "h1", "bar"⟩],
   ["bar"], [(("baz", "base"), "main")], [], ["main", "bar"], some "main",
   "/r", [], ["/r"]⟩

/-- World for the `feature-x` scenario of C5. -/
def c5WorldA : World :=
  ⟨"/r/.baag/worktrees", [⟨"/r", "h0", "feature-x"⟩], [], [], [],
   ["main", "feature-x"], some "feature-x", "/r", [], ["/r"]⟩

/-- World for the no-current-branch scenario of C5. -/
def c5WorldB : World :=
  ⟨"/r/.baag/worktrees", [⟨"/r", "h0", "main"⟩], [], [], [],
   ["main"], none, "/r", [], ["/r"]⟩

/-- A fresh repository for the C2 scenarios. -/
def c2World : World :=
  ⟨"/r/.baag/worktrees", [⟨"/r", "h0", "main"⟩], [], [], [],
   ["main"], some "main", "/r", [], ["/r"]⟩

/-- Config with a dev-server command for C2/C6. -/
def c2Cfg : Config := ⟨none, none, none, some "npm start -p $BAAG_PORT"⟩

/-- Environment whose select-pane call (index 14) fails after the server
keys were written. -/
def c2EnvBad : StartEnv := ⟨true, ⟨some 14⟩, some "3000"⟩

/-- Environment for a failure-free run. -/
def c2EnvGood : StartEnv := ⟨true, ⟨none⟩, some "3000"⟩

/-- The ten metadata keys any operation of the tool ever writes: the
eight the `config` cleanup task unsets plus the two server keys. -/
def tenFields : List String := eightFields ++ ["server-port", "server-pane"]

/-- A repository whose store holds a single orphaned `server-port` key
(exactly what the C2 poison window leaves behind). -/
def c3World : World :=
  ⟨"/r/.baag/worktrees", [⟨"/r", "h0", "main"⟩], [],
   [(("x", "server-port"), "3001")], [], ["main"], some "main", "/r", [], ["/r"]⟩

/-- A repository whose store holds a single orphaned `base` key, which
one confirmed cleanup run fully reclaims. -/
def c3WorldGood : World :=
  ⟨"/r/.baag/worktrees", [⟨"/r", "h0", "main"⟩], [],
   [(("x", "base"), "main")], [], ["main"], some "main", "/r", [], ["/r"]⟩

/-- A repository with a worktree registered at a nested path below the
workspace root and a directory of the same basename directly under the
root. -/
def c4World : World :=
  ⟨"/r/.baag/worktrees",
   [⟨"/r", "h0", "main"⟩, ⟨"/r/.baag/worktrees/x/foo", "h2", "b"⟩],
   ["foo"], [], [], ["main"], some "main", "/r", [], ["/r"]⟩

/-! ## Helper lemmas: the store -/

theorem getCfg_nil (n k : String) : getCfg [] n k = none := rfl

theorem getCfg_append (s1 s2 : Store) (n k : String) :
    getCfg (s1 ++ s2) n k =
      match getCfg s1 n k with
      | some v => some v
      | none => getCfg s2 n k := by
  induction s1 with
  | nil => simp [getCfg]
  | cons e es ih =>
    by_cases h : e.1 = (n, k) <;> simp [getCfg, h, ih]

theorem getCfg_unsetCfg (st : Store) (n k' k : String) :
    getCfg (unsetCfg st n k') n k = if k = k' then none else getCfg st n k := by
  induction st with
  | nil => simp [unsetCfg, getCfg]
  | cons e es ih =>
    by_cases he : e.1 = (n, k')
    · by_cases hk : k = k'
      · simpa [unsetCfg, he, hk] using ih
      · have hne : ¬ e.1 = (n, k) := by
          rw [he]; intro hcon
          exact hk (by injection hcon with h1 h2; exact h2.symm)
        have hk2 : ¬ k' = k := fun hc => hk hc.symm
        simp [unsetCfg, getCfg, he, hne, ih, hk, hk2]
    · by_cases hk : e.1 = (n, k)
      · have hkk : ¬ k = k' := by
          rintro rfl; exact he hk
        simp [unsetCfg, getCfg, he, hk, hkk]
      · simp [unsetCfg, getCfg, he, hk, ih]

theorem getCfg_setCfg (st : Store) (n k' v k : String) :
    getCfg (setCfg st n k' v) n k = if k = k' then some v else getCfg st n k := by
  by_cases h : k = k'
  · simp [setCfg, getCfg_append, getCfg_unsetCfg, h, getCfg]
  · have h2 : ¬ k' = k := fun hc => h hc.symm
    cases hg : getCfg st n k <;>
      simp [setCfg, getCfg_append, getCfg_unsetCfg, h, h2, getCfg, hg]

/-- Different workspace namespaces never interfere. -/
theorem getCfg_unsetCfg_ne_name (st : Store) {n' n : String} (h : n' ≠ n)
    (k' k : String) : getCfg (unsetCfg st n' k') n k = getCfg st n k := by
  induction st with
  | nil => simp [unsetCfg]
  | cons e es ih =>
    have h2 : ¬ n' = n := h
    have h3 : ¬ n = n' := fun hc => h hc.symm
    by_cases he : e.1 = (n', k')
    · have hne : ¬ e.1 = (n, k) := fun hcon =>
        h (congrArg Prod.fst (he.symm.trans hcon))
      simp [unsetCfg, getCfg, he, hne, ih, h2, h3]
    · by_cases hk : e.1 = (n, k) <;> simp [unsetCfg, getCfg, he, hk, ih, h2, h3]

theorem getCfg_setCfg_ne_name (st : Store) {n' n : String} (h : n' ≠ n)
    (k' v k : String) : getCfg (setCfg st n' k' v) n k = getCfg st n k := by
  have h1 : ¬ ((n', k') : String × String) = (n, k) := fun hcon =>
    h (congrArg Prod.fst hcon)
  cases hg : getCfg st n k <;>
    simp [setCfg, getCfg_append, getCfg_unsetCfg_ne_name st h, getCfg, h1, hg]

theorem mem_unsetCfg {st : Store} {n k : String} {e : (String × String) × String} :
    e ∈ unsetCfg st n k ↔ e ∈ st ∧ e.1 ≠ (n, k) := by
  induction st with
  | nil => simp [unsetCfg]
  | cons x xs ih =>
    by_cases hx : x.1 = (n, k)
    · simp only [unsetCfg, if_pos hx, ih, List.mem_cons]
      constructor
      · rintro ⟨h1, h2⟩; exact ⟨Or.inr h1, h2⟩
      · rintro ⟨h1 | h1, h2⟩
        · exact absurd (h1 ▸ hx) h2
        · exact ⟨h1, h2⟩
    · simp only [unsetCfg, if_neg hx, List.mem_cons, ih]
      constructor
      · rintro (rfl | ⟨h1, h2⟩)
        · exact ⟨Or.inl rfl, hx⟩
        · exact ⟨Or.inr h1, h2⟩
      · rintro ⟨rfl | h1, h2⟩
        · exact Or.inl rfl
        · exact Or.inr ⟨h1, h2⟩

/-! ## Helper lemmas: substring containment in the registry listing -/

theorem strData_append (a b : String) : (a ++ b).data = a.data ++ b.data := rfl

theorem mem_joinLines_infix {L : List String} {l : String} (h : l ∈ L) :
    ∃ s t, s ++ l.data ++ t = (joinLines L).data := by
  induction L with
  | nil => cases h
  | cons x xs ih =>
    rcases List.mem_cons.mp h with rfl | hmem
    · cases xs with
      | nil => exact ⟨[], [], by simp [joinLines]⟩
      | cons y ys =>
        exact ⟨[], ("\n" ++ joinLines (y :: ys)).data, by
          simp [joinLines, strData_append]⟩
    · have hne : xs ≠ [] := by rintro rfl; cases hmem
      obtain ⟨s, t, hst⟩ := ih hmem
      cases xs with
      | nil => cases hmem
      | cons y ys =>
        exact ⟨(x ++ "\n").data ++ s, t, by
          simp [joinLines, strData_append, List.append_assoc, hst]⟩

/-- A registered path shows up verbatim in the `git worktree list`
output, so any name whose `wtDir/name` string equals that path passes
`worktreeExists`. -/
theorem strContains_of_registry {w : World} {e : RegistryEntry} {n : String}
    (hmem : e ∈ w.registry) (hpath : e.path = w.wtDir ++ "/" ++ n) :
    worktreeExists w n = true := by
  have hline : worktreeListLine e ∈ w.registry.map worktreeListLine :=
    List.mem_map_of_mem _ hmem
  obtain ⟨s, t, hst⟩ := mem_joinLines_infix hline
  have hdata : (worktreeListLine e).data =
      (w.wtDir ++ "/" ++ n).data ++ (" " ++ e.hash ++ " [" ++ e.branch ++ "]").data := by
    simp [worktreeListLine, hpath, strData_append, List.append_assoc]
  simp only [worktreeExists, strContains, worktreeListOutput, decide_eq_true_eq]
  refine ⟨s, (" " ++ e.hash ++ " [" ++ e.branch ++ "]").data ++ t, ?_⟩
  rw [← hst, hdata]
  simp [List.append_assoc]

/-! ## Helper lemmas: cleanupTmuxSession touches only sessions and store -/

theorem cleanupTmux_registry (w : World) (n : String) :
    (cleanupTmuxSession w n).registry = w.registry := by
  by_cases h : jsTruthy (getCfg w.store n "tmux-session") = true
  · by_cases h2 : ((getCfg w.store n "tmux-session").getD "") ∈ w.sessions <;>
      simp [cleanupTmuxSession, h, h2]
  · simp [cleanupTmuxSession, h]

theorem cleanupTmux_dirs (w : World) (n : String) :
    (cleanupTmuxSession w n).dirs = w.dirs := by
  by_cases h : jsTruthy (getCfg w.store n "tmux-session") = true
  · by_cases h2 : ((getCfg w.store n "tmux-session").getD "") ∈ w.sessions <;>
      simp [cleanupTmuxSession, h, h2]
  · simp [cleanupTmuxSession, h]

theorem cleanupTmux_dirty (w : World) (n : String) :
    (cleanupTmuxSession w n).dirty = w.dirty := by
  by_cases h : jsTruthy (getCfg w.store n "tmux-session") = true
  · by_cases h2 : ((getCfg w.store n "tmux-session").getD "") ∈ w.sessions <;>
      simp [cleanupTmuxSession, h, h2]
  · simp [cleanupTmuxSession, h]

theorem cleanupTmux_wtDir (w : World) (n : String) :
    (cleanupTmuxSession w n).wtDir = w.wtDir := by
  by_cases h : jsTruthy (getCfg w.store n "tmux-session") = true
  · by_cases h2 : ((getCfg w.store n "tmux-session").getD "") ∈ w.sessions <;>
      simp [cleanupTmuxSession, h, h2]
  · simp [cleanupTmuxSession, h]

theorem cleanupTmux_cwd (w : World) (n : String) :
    (cleanupTmuxSession w n).cwd = w.cwd := by
  by_cases h : jsTruthy (getCfg w.store n "tmux-session") = true
  · by_cases h2 : ((getCfg w.store n "tmux-session").getD "") ∈ w.sessions <;>
      simp [cleanupTmuxSession, h, h2]
  · simp [cleanupTmuxSession, h]

/-- `stop` on an existing dirty workspace without `--force`: the removal
call fails, the command exits after the tmux teardown it already did. -/
theorem stop_dirty_eq (w : World) (n : String)
    (hex : worktreeExists w n = true) (hdirty : n ∈ w.dirty) :
    stopWorktree w (some n) false = (cleanupTmuxSession w n, true) := by
  unfold stopWorktree
  dsimp only
  rw [if_neg (fun hc => hc hex),
    if_pos ⟨by simp, (cleanupTmux_dirty w n).symm ▸ hdirty⟩]

/-! ## C1 -/

/-- C1 (amended): `stop` without `--force` on a workspace with
uncommitted changes exits non-zero and leaves the directory, the registry
entry and every non-session metadata key (in particular `base`,
`origin-dir`, `origin-branch`) unchanged - but it first tears the live
session down and purges the session keys (`tmux-session`, `ai-pane`,
`ai-agent`, `server-port`, `server-pane`), because `stopWorktree` calls
`cleanupTmuxSession` before the removal attempt. -/
theorem stop_dirty_preserves_worktree (w : World) (n : String)
    (hex : worktreeExists w n = true) (hdirty : n ∈ w.dirty) :
    (stopWorktree w (some n) false).2 = true ∧
    (stopWorktree w (some n) false).1.dirs = w.dirs ∧
    (stopWorktree w (some n) false).1.registry = w.registry ∧
    (∀ k, k ∉ ["tmux-session", "ai-pane", "ai-agent", "server-port", "server-pane"] →
      getCfg (stopWorktree w (some n) false).1.store n k = getCfg w.store n k) ∧
    (jsTruthy (getCfg w.store n "tmux-session") = true →
      getCfg (stopWorktree w (some n) false).1.store n "tmux-session" = none ∧
      (getCfg w.store n "tmux-session").getD "" ∉ (stopWorktree w (some n) false).1.sessions) := by
  rw [stop_dirty_eq w n hex hdirty]
  refine ⟨rfl, cleanupTmux_dirs w n, cleanupTmux_registry w n, ?_, ?_⟩
  · intro k hk
    simp only [List.mem_cons, List.not_mem_nil, or_false, not_or] at hk
    obtain ⟨h1, h2, h3, h4, h5⟩ := hk
    by_cases h : jsTruthy (getCfg w.store n "tmux-session") = true
    · by_cases hc : ((getCfg w.store n "tmux-session").getD "") ∈ w.sessions <;>
        simp [cleanupTmuxSession, h, hc, getCfg_unsetCfg, h1, h2, h3, h4, h5]
    · simp [cleanupTmuxSession, h]
  · intro htruthy
    by_cases hc : ((getCfg w.store n "tmux-session").getD "") ∈ w.sessions
    · constructor
      · simp [cleanupTmuxSession, htruthy, hc, getCfg_unsetCfg]
      · simp [cleanupTmuxSession, htruthy, hc, List.mem_filter]
    · constructor
      · simp [cleanupTmuxSession, htruthy, hc, getCfg_unsetCfg]
      · simp [cleanupTmuxSession, htruthy, hc]

/-- C1 witness: the dirty workspace `foo` of `c1World`. -/
theorem stop_dirty_preserves_worktree_witness :
    (stopWorktree c1World (some "foo") false).2 = true ∧
    (stopWorktree c1World (some "foo") false).1.dirs = c1World.dirs := by
  have h := stop_dirty_preserves_worktree c1World "foo" (by decide) (by decide)
  exact ⟨h.1, h.2.1⟩

/-- C1 counterexample: on `c1World` the claim's "leaves every Metadata
Store key unchanged and the live session running" is false - `stop`
without `--force` kills the session and drops `tmux-session` even though
the removal then fails. -/
theorem stop_dirty_kills_session_counterexample :
    (stopWorktree c1World (some "foo") false).2 = true ∧
    getCfg c1World.store "foo" "tmux-session" = some "baag-foo" ∧
    getCfg (stopWorktree c1World (some "foo") false).1.store "foo" "tmux-session" = none ∧
    "baag-foo" ∈ c1World.sessions ∧
    "baag-foo" ∉ (stopWorktree c1World (some "foo") false).1.sessions := by
  decide

/-! ## C8: the stored origin-branch is the resolved base branch, not the
caller's branch -/

/-- C8: `startWorktree` stores `currentBaseBranch` under `origin-branch`
(worktree-utils line 871), so with `--base main` issued from branch
`feature-y` the recorded `origin-branch` is `main`, not the caller's
branch - contradicting the code's own "store the original directory and
branch" comment and the spec's `originBranch` attribute.  `origin-dir`
does receive the caller's working directory. -/
theorem start_origin_branch_bug :
    c8World.currentBranch = some "feature-y" ∧
    getCfg (startWorktree c8World noCfg plainEnv "auth" (some "main") false).1.store
      "auth" "origin-branch" = some "main" ∧
    getCfg (startWorktree c8World noCfg plainEnv "auth" (some "main") false).1.store
      "auth" "origin-dir" = some "/r" ∧
    some "main" ≠ c8World.currentBranch := by
  decide

/-! ## C10: worktreeExists is a substring test -/

/-- C10: `worktreeExists n` is exactly the substring test of
`worktreesDir + "/" + n` against the `git worktree list` output; hence
with `foo-bar` registered, `worktreeExists "foo"` already holds and
`start foo` dies with a name conflict although no workspace `foo`
exists. -/
theorem worktreeExists_substring_semantics :
    (∀ (w : World) (n : String),
      worktreeExists w n =
        strContains (worktreeListOutput w.registry) (w.wtDir ++ "/" ++ n)) ∧
    worktreeExists c10World "foo" = true ∧
    (∀ e ∈ c10World.registry, e.path ≠ c10World.wtDir ++ "/" ++ "foo") ∧
    (startWorktree c10World noCfg plainEnv "foo" none false).2 = StartExit.conflict := by
  refine ⟨fun w n => rfl, by decide, by decide, by decide⟩

/-- C10 witness: the bounded quantifier of the third conjunct applied to
a concrete registry entry. -/
theorem worktreeExists_substring_semantics_witness :
    (⟨"/r", "h0", "main"⟩ : RegistryEntry).path ≠ c10World.wtDir ++ "/" ++ "foo" :=
  worktreeExists_substring_semantics.2.2.1 ⟨"/r", "h0", "main"⟩ (by decide)

/-! ## C7: switch on an absent name -/

/-- C7 (amended): `switch` on a name the Registry Adapter does not report
never creates anything - the world is returned untouched, the command
exits non-zero - and the remediation hint it prints is the set of
Metadata Store namespaces (`storeNamespaces`), not the registry
listing. -/
theorem switch_absent_fails (w : World) (cfg : Config) (env : StartEnv)
    (name : String) (h : worktreeExists w name = false) :
    switchWorktree w cfg env name = ⟨w, true, some (storeNamespaces w.store)⟩ := by
  unfold switchWorktree
  rw [if_pos (fun hc => by rw [h] at hc; exact Bool.noConfusion hc)]

/-- C7 witness: instantiating `switch_absent_fails` on `c7World`. -/
theorem switch_absent_fails_witness :
    switchWorktree c7World noCfg plainEnv "nope" =
      ⟨c7World, true, some ["baz"]⟩ := by
  have h := switch_absent_fails c7World noCfg plainEnv "nope" (by decide)
  rw [h]; rfl

/-- C7 counterexample: the hint is not the union of Workspace Registry
entries - registry workspace `bar` is missing from it and `baz`, which
has no registry entry, is reported. -/
theorem switch_hint_source_counterexample :
    (switchWorktree c7World noCfg plainEnv "nope").hint = some ["baz"] ∧
    (∃ e ∈ c7World.registry, e.path = c7World.wtDir ++ "/" ++ "bar") ∧
    "bar" ∉ ["baz"] ∧
    (∀ e ∈ c7World.registry, basename e.path ≠ "baz") := by
  decide

/-! ## C5: base-branch resolution priority -/

/-- C5: the base branch is resolved with priority explicit flag
(validated - a missing branch is a fatal error) → caller's current branch
→ configured default base branch when it exists → literal `"main"`; in
particular `start` on branch `feature-x` records `base = feature-x`, and
with no resolvable current branch and no configured default it records
`base = "main"`. -/
theorem start_base_resolution (w : World) (cfg : Config) :
    (∀ b, branchExists w b = true → resolveBaseBranch w cfg (some b) = Except.ok b) ∧
    (∀ b, branchExists w b = false → resolveBaseBranch w cfg (some b) = Except.error ()) ∧
    (jsTruthy w.currentBranch = true →
      resolveBaseBranch w cfg none = Except.ok (w.currentBranch.getD "")) ∧
    (jsTruthy w.currentBranch = false → branchExists w (getBaseBranchCfg cfg) = true →
      resolveBaseBranch w cfg none = Except.ok (getBaseBranchCfg cfg)) ∧
    (jsTruthy w.currentBranch = false → branchExists w (getBaseBranchCfg cfg) = false →
      resolveBaseBranch w cfg none = Except.ok "main") ∧
    getCfg (startWorktree c5WorldA noCfg plainEnv "auth" none false).1.store
      "auth" "base" = some "feature-x" ∧
    getCfg (startWorktree c5WorldB noCfg plainEnv "auth" none false).1.store
      "auth" "base" = some "main" := by
  refine ⟨?_, ?_, ?_, ?_, ?_, by decide, by decide⟩
  · intro b hb; simp [resolveBaseBranch, hb]
  · intro b hb; simp [resolveBaseBranch, hb]
  · intro hc; simp [resolveBaseBranch, hc]
  · intro hc hconf
    have hne : getBaseBranchCfg cfg ≠ "" := by
      unfold getBaseBranchCfg jsTruthy
      cases cfg.baseBranch with
      | none => simp
      | some s => by_cases h : s = "" <;> simp [h]
    simp [resolveBaseBranch, hc, hconf, hne]
  · intro hc hconf; simp [resolveBaseBranch, hc, hconf]

/-- C5 witness: instantiating the resolution cases on concrete worlds. -/
theorem start_base_resolution_witness :
    resolveBaseBranch c5WorldA noCfg none = Except.ok "feature-x" ∧
    resolveBaseBranch c5WorldB noCfg none = Except.ok (getBaseBranchCfg noCfg) ∧
    resolveBaseBranch c5WorldA noCfg (some "main") = Except.ok "main" ∧
    resolveBaseBranch c5WorldA noCfg (some "nope") = Except.error () := by
  refine ⟨?_, ?_, ?_, ?_⟩
  · exact (start_base_resolution c5WorldA noCfg).2.2.1 (by decide)
  · exact (start_base_resolution c5WorldB noCfg).2.2.2.1 (by decide) (by decide)
  · exact (start_base_resolution c5WorldA noCfg).1 "main" (by decide)
  · exact (start_base_resolution c5WorldA noCfg).2.1 "nope" (by decide)

/-! ## C9: failure inside the session orchestrator -/

/-- C9: whenever `createTmuxSession` reports non-success - in particular
for a failure at any external call after the session was created - the
session with the derived name is no longer alive (the catch block kills
it if it still exists) and the caller has been placed in the workspace
directory by a plain directory change. -/
theorem tmux_failure_teardown (w : World) (cfg : Config) (env : TmuxEnv)
    (n p : String) (hsplit : Bool) (port : Option String)
    (hfail : (createTmuxSession w cfg env n p hsplit port).2 = false) :
    sessionNameOf n ∉ (createTmuxSession w cfg env n p hsplit port).1.sessions ∧
    (createTmuxSession w cfg env n p hsplit port).1.cwd = p := by
  revert hfail
  unfold createTmuxSession
  dsimp only
  cases h : runSteps env.failAt (tmuxSteps cfg n (sessionNameOf n) hsplit port) 0
      { w with sessions := List.filter (fun s => decide (s ≠ sessionNameOf n)) w.sessions } with
  | mk w1 b =>
    cases b with
    | true => intro hfail; simp at hfail
    | false => intro _; simp [tmuxCatch, List.mem_filter]

/-! ## Characterizing runSteps -/

theorem runSteps_none (steps : List TStep) : ∀ (k : Nat) (w : World),
    runSteps none steps k w = (stepsApply steps w, true) := by
  induction steps with
  | nil => intro k w; simp [runSteps, stepsApply]
  | cons t rest ih =>
    intro k w
    cases t with
    | write f => simpa [runSteps, stepsApply, stepEffect] using ih k (f w)
    | call f => simpa [runSteps, stepsApply, stepEffect] using ih (k + 1) (f w)

theorem runSteps_some (steps : List TStep) : ∀ (j k : Nat) (w : World),
    runSteps (some j) steps k w =
      if j < k ∨ k + countCalls steps ≤ j then (stepsApply steps w, true)
      else (stepsApply (takeToCall (j - k) steps) w, false) := by
  induction steps with
  | nil =>
    intro j k w
    have h : j < k ∨ k + countCalls ([] : List TStep) ≤ j := by
      simp [countCalls]; omega
    simp [runSteps, h, stepsApply]
  | cons t rest ih =>
    intro j k w
    cases t with
    | write f =>
      have h1 : runSteps (some j) (TStep.write f :: rest) k w
          = runSteps (some j) rest k (f w) := rfl
      rw [h1, ih]
      by_cases hc : j < k ∨ k + countCalls rest ≤ j
      · rw [if_pos hc, if_pos (show j < k ∨ k + countCalls (TStep.write f :: rest) ≤ j from hc)]
        rfl
      · rw [if_neg hc, if_neg (show ¬ (j < k ∨ k + countCalls (TStep.write f :: rest) ≤ j) from hc)]
        rfl
    | call f =>
      by_cases hjk : j = k
      · subst hjk
        have h1 : runSteps (some j) (TStep.call f :: rest) j w = (w, false) := by
          simp [runSteps]
        have hc : ¬ (j < j ∨ j + countCalls (TStep.call f :: rest) ≤ j) := by
          simp only [countCalls]
          omega
        rw [h1, if_neg hc, Nat.sub_self]
        rfl
      · have h1 : runSteps (some j) (TStep.call f :: rest) k w
            = runSteps (some j) rest (k + 1) (f w) := by
          simp [runSteps, hjk]
        rw [h1, ih]
        have hcc : countCalls (TStep.call f :: rest) = countCalls rest + 1 := rfl
        by_cases hc : j < k + 1 ∨ (k + 1) + countCalls rest ≤ j
        · rw [if_pos hc, if_pos (show j < k ∨ k + countCalls (TStep.call f :: rest) ≤ j by
            rw [hcc]; omega)]
          rfl
        · rw [if_neg hc, if_neg (show ¬ (j < k ∨ k + countCalls (TStep.call f :: rest) ≤ j) by
            rw [hcc]; omega)]
          have hsub : j - k = (j - (k + 1)) + 1 := by omega
          rw [hsub]
          rfl

theorem mem_takeToCall {m : Nat} {steps : List TStep} {t : TStep}
    (h : t ∈ takeToCall m steps) : t ∈ steps := by
  induction steps generalizing m with
  | nil => simp [takeToCall] at h
  | cons s rest ih =>
    cases s with
    | write f =>
      rw [show takeToCall m (TStep.write f :: rest)
            = TStep.write f :: takeToCall m rest from rfl] at h
      rcases List.mem_cons.mp h with rfl | h
      · exact List.mem_cons_self _ _
      · exact List.mem_cons_of_mem _ (ih h)
    | call f =>
      cases m with
      | zero => simp [takeToCall] at h
      | succ m =>
        rw [show takeToCall (m + 1) (TStep.call f :: rest)
              = TStep.call f :: takeToCall m rest from rfl] at h
        rcases List.mem_cons.mp h with rfl | h
        · exact List.mem_cons_self _ _
        · exact List.mem_cons_of_mem _ (ih h)

theorem stepsApply_keeps {α : Type} (g : World → α) :
    ∀ (steps : List TStep), (∀ t ∈ steps, stepKeeps g t) →
      ∀ w, g (stepsApply steps w) = g w := by
  intro steps
  induction steps with
  | nil => intro _ w; rfl
  | cons t rest ih =>
    intro h w
    have h1 : g (stepsApply rest (stepEffect t w)) = g (stepEffect t w) :=
      ih (fun t' ht' => h t' (List.mem_cons_of_mem _ ht')) (stepEffect t w)
    have h2 : g (stepEffect t w) = g w := h t (List.mem_cons_self _ _) w
    calc g (stepsApply (t :: rest) w)
        = g (stepsApply rest (stepEffect t w)) := rfl
      _ = g (stepEffect t w) := h1
      _ = g w := h2

/-- Every step of the orchestrator body only touches sessions and the
store. -/
theorem tmuxSteps_keeps {α : Type} (g : World → α)
    (hsess : ∀ (w : World) s, g { w with sessions := s } = g w)
    (hstore : ∀ (w : World) st, g { w with store := st } = g w)
    (cfg : Config) (n sn : String) (hsplit : Bool) (port : Option String) :
    ∀ t ∈ tmuxSteps cfg n sn hsplit port, stepKeeps g t := by
  intro t ht
  cases hs : (jsTruthy cfg.serverCommand && jsTruthy port) <;>
    simp only [tmuxSteps, hs, Bool.false_eq_true, if_true, if_false,
      List.replicate, List.cons_append, List.nil_append, List.append_nil,
      reduceIte] at ht <;>
    fin_cases ht <;>
    intro w <;>
    first
      | rfl
      | exact hsess w _
      | exact hstore _ _

theorem tmuxCatch_keeps {α : Type} (g : World → α)
    (hsess : ∀ (w : World) s, g { w with sessions := s } = g w)
    (hcwd : ∀ (w : World) c, g { w with cwd := c } = g w)
    (w1 : World) (sn p : String) : g (tmuxCatch w1 sn p).1 = g w1 := by
  have h2 := hcwd { w1 with sessions := List.filter (fun s => decide (s ≠ sn)) w1.sessions } p
  exact h2.trans (hsess w1 _)

/-- `createTmuxSession` leaves any view untouched that ignores sessions,
store and working directory. -/
theorem createTmux_keeps {α : Type} (g : World → α)
    (hsess : ∀ (w : World) s, g { w with sessions := s } = g w)
    (hstore : ∀ (w : World) st, g { w with store := st } = g w)
    (hcwd : ∀ (w : World) c, g { w with cwd := c } = g w)
    (w : World) (cfg : Config) (env : TmuxEnv) (n p : String)
    (hsplit : Bool) (port : Option String) :
    g (createTmuxSession w cfg env n p hsplit port).1 = g w := by
  unfold createTmuxSession
  dsimp only
  have hkeep := tmuxSteps_keeps g hsess hstore cfg n (sessionNameOf n) hsplit port
  have hw0 := hsess w (List.filter (fun s => decide (s ≠ sessionNameOf n)) w.sessions)
  cases hfa : env.failAt with
  | none =>
    rw [runSteps_none]
    exact (stepsApply_keeps g _ hkeep _).trans hw0
  | some j =>
    rw [runSteps_some]
    by_cases hc : j < 0 ∨ 0 + countCalls (tmuxSteps cfg n (sessionNameOf n) hsplit port) ≤ j
    · rw [if_pos hc]
      exact (stepsApply_keeps g _ hkeep _).trans hw0
    · rw [if_neg hc]
      exact (tmuxCatch_keeps g hsess hcwd _ _ _).trans
        ((stepsApply_keeps g _ (fun t ht => hkeep t (mem_takeToCall ht)) _).trans hw0)

/-! ## The metadata effect of an orchestrator run -/

theorem tmuxSteps_calls_server {cfg : Config} {port : Option String}
    (hs : (jsTruthy cfg.serverCommand && jsTruthy port) = true)
    (n sn : String) (hsplit : Bool) :
    countCalls (tmuxSteps cfg n sn hsplit port) = 15 := by
  simp only [tmuxSteps, hs]
  rfl

theorem tmuxSteps_calls_noserver {cfg : Config} {port : Option String}
    (hs : (jsTruthy cfg.serverCommand && jsTruthy port) = false)
    (n sn : String) (hsplit : Bool) :
    countCalls (tmuxSteps cfg n sn hsplit port) = 11 := by
  simp only [tmuxSteps, hs]
  rfl

theorem tmuxSteps_apply_store_server {cfg : Config} {port : Option String}
    (hs : (jsTruthy cfg.serverCommand && jsTruthy port) = true)
    (n sn : String) (hsplit : Bool) (w : World) :
    (stepsApply (tmuxSteps cfg n sn hsplit port) w).store =
      sessionStore cfg n sn (serverStore n port w.store) := by
  simp only [tmuxSteps, hs]
  rfl

theorem tmuxSteps_apply_store_noserver {cfg : Config} {port : Option String}
    (hs : (jsTruthy cfg.serverCommand && jsTruthy port) = false)
    (n sn : String) (hsplit : Bool) (w : World) :
    (stepsApply (tmuxSteps cfg n sn hsplit port) w).store =
      sessionStore cfg n sn w.store := by
  cases hsplit <;> (simp only [tmuxSteps, hs]; rfl)

theorem tmuxSteps_prefix_store_server {cfg : Config} {port : Option String}
    (hs : (jsTruthy cfg.serverCommand && jsTruthy port) = true)
    (n sn : String) (hsplit : Bool) (w : World) (j : Nat) (hj : j ≤ 13) :
    (stepsApply (takeToCall j (tmuxSteps cfg n sn hsplit port)) w).store = w.store := by
  interval_cases j <;> (simp only [tmuxSteps, hs]; rfl)

theorem tmuxSteps_prefix14_store_server {cfg : Config} {port : Option String}
    (hs : (jsTruthy cfg.serverCommand && jsTruthy port) = true)
    (n sn : String) (hsplit : Bool) (w : World) :
    (stepsApply (takeToCall 14 (tmuxSteps cfg n sn hsplit port)) w).store =
      serverStore n port w.store := by
  simp only [tmuxSteps, hs]
  rfl

theorem tmuxSteps_prefix_store_noserver {cfg : Config} {port : Option String}
    (hs : (jsTruthy cfg.serverCommand && jsTruthy port) = false)
    (n sn : String) (hsplit : Bool) (w : World) (j : Nat) (hj : j ≤ 10) :
    (stepsApply (takeToCall j (tmuxSteps cfg n sn hsplit port)) w).store = w.store := by
  interval_cases j <;> (simp only [tmuxSteps, hs]; rfl)

/-- The store after a `createTmuxSession` run: outside the window between
the server-key writes and the session-key writes (excluded by `hwin`),
either nothing was written, or the run succeeded and all metadata keys
were written. -/
theorem createTmux_store (w : World) (cfg : Config) (env : TmuxEnv)
    (n p : String) (hsplit : Bool) (port : Option String)
    (hwin : ¬ ((jsTruthy cfg.serverCommand && jsTruthy port) = true ∧
      env.failAt = some 14)) :
    (createTmuxSession w cfg env n p hsplit port).1.store = w.store ∨
    ((createTmuxSession w cfg env n p hsplit port).2 = true ∧
      (createTmuxSession w cfg env n p hsplit port).1.store =
        sessionStore cfg n (sessionNameOf n)
          (if (jsTruthy cfg.serverCommand && jsTruthy port) = true
           then serverStore n port w.store else w.store)) := by
  unfold createTmuxSession
  dsimp only
  cases hs : (jsTruthy cfg.serverCommand && jsTruthy port) with
  | true =>
    cases hfa : env.failAt with
    | none =>
      rw [runSteps_none]
      right
      refine ⟨rfl, ?_⟩
      rw [if_pos rfl]
      exact tmuxSteps_apply_store_server hs n (sessionNameOf n) hsplit _
    | some j =>
      rw [runSteps_some]
      by_cases hc : j < 0 ∨
          0 + countCalls (tmuxSteps cfg n (sessionNameOf n) hsplit port) ≤ j
      · rw [if_pos hc]
        right
        refine ⟨rfl, ?_⟩
        rw [if_pos rfl]
        exact tmuxSteps_apply_store_server hs n (sessionNameOf n) hsplit _
      · rw [if_neg hc]
        left
        have hj13 : j ≤ 13 := by
          have h1 : ¬ (0 + countCalls (tmuxSteps cfg n (sessionNameOf n) hsplit port) ≤ j) :=
            fun h => hc (Or.inr h)
          rw [tmuxSteps_calls_server hs n (sessionNameOf n) hsplit] at h1
          have hne : j ≠ 14 := fun h => hwin ⟨hs, by rw [hfa, h]⟩
          omega
        rw [Nat.sub_zero]
        exact tmuxSteps_prefix_store_server hs n (sessionNameOf n) hsplit _ j hj13
  | false =>
    cases hfa : env.failAt with
    | none =>
      rw [runSteps_none]
      right
      refine ⟨rfl, ?_⟩
      rw [if_neg (fun hcon => Bool.noConfusion hcon)]
      exact tmuxSteps_apply_store_noserver hs n (sessionNameOf n) hsplit _
    | some j =>
      rw [runSteps_some]
      by_cases hc : j < 0 ∨
          0 + countCalls (tmuxSteps cfg n (sessionNameOf n) hsplit port) ≤ j
      · rw [if_pos hc]
        right
        refine ⟨rfl, ?_⟩
        rw [if_neg (fun hcon => Bool.noConfusion hcon)]
        exact tmuxSteps_apply_store_noserver hs n (sessionNameOf n) hsplit _
      · rw [if_neg hc]
        left
        have hj10 : j ≤ 10 := by
          have h1 : ¬ (0 + countCalls (tmuxSteps cfg n (sessionNameOf n) hsplit port) ≤ j) :=
            fun h => hc (Or.inr h)
          rw [tmuxSteps_calls_noserver hs n (sessionNameOf n) hsplit] at h1
          omega
        rw [Nat.sub_zero]
        exact tmuxSteps_prefix_store_noserver hs n (sessionNameOf n) hsplit _ j hj10

/-- A failure-free run of `createTmuxSession`. -/
theorem createTmux_none_eq (w : World) (cfg : Config) (n p : String)
    (hsplit : Bool) (port : Option String) :
    createTmuxSession w cfg ⟨none⟩ n p hsplit port =
      (stepsApply (tmuxSteps cfg n (sessionNameOf n) hsplit port)
        { w with sessions := List.filter (fun s => decide (s ≠ sessionNameOf n)) w.sessions },
       true) := by
  unfold createTmuxSession
  dsimp only
  rw [runSteps_none]

/-! ## C6: the 3-pane layout -/

/-- C6: with a dev-server command configured and a port available, the
pane assignment is terminal=0, agent=1, server=2 for both split
orientations, and a successful `createTmuxSession` run records
`ai-pane = "1"` and `server-pane = "2"` in the Metadata Store. -/
theorem threepane_assignment (w : World) (cfg : Config) (n p : String)
    (hsplit : Bool) (port : Option String)
    (hserver : jsTruthy cfg.serverCommand = true)
    (hport : jsTruthy port = true) :
    paneAssignment true hsplit = ⟨"0", "1", some "2"⟩ ∧
    (createTmuxSession w cfg ⟨none⟩ n p hsplit port).2 = true ∧
    getCfg (createTmuxSession w cfg ⟨none⟩ n p hsplit port).1.store
      n "ai-pane" = some "1" ∧
    getCfg (createTmuxSession w cfg ⟨none⟩ n p hsplit port).1.store
      n "server-pane" = some "2" := by
  have hs : (jsTruthy cfg.serverCommand && jsTruthy port) = true := by
    rw [hserver, hport]; rfl
  rw [createTmux_none_eq]
  refine ⟨rfl, rfl, ?_, ?_⟩
  · rw [tmuxSteps_apply_store_server hs n (sessionNameOf n) hsplit _]
    unfold sessionStore
    rw [getCfg_setCfg, if_neg (by decide), getCfg_setCfg, if_pos rfl]
  · rw [tmuxSteps_apply_store_server hs n (sessionNameOf n) hsplit _]
    unfold sessionStore serverStore
    rw [getCfg_setCfg, if_neg (by decide), getCfg_setCfg, if_neg (by decide),
      getCfg_setCfg, if_neg (by decide), getCfg_setCfg, if_pos rfl]

/-- C6 witness: a concrete 3-pane run with the horizontal orientation. -/
theorem threepane_assignment_witness :
    paneAssignment true true = ⟨"0", "1", some "2"⟩ ∧
    getCfg (createTmuxSession c1World ⟨none, none, none, some "npm start"⟩ ⟨none⟩
      "auth" "/r/.baag/worktrees/auth" true (some "3000")).1.store
      "auth" "server-pane" = some "2" := by
  have h := threepane_assignment c1World ⟨none, none, none, some "npm start"⟩
    "auth" "/r/.baag/worktrees/auth" true (some "3000") (by decide) (by decide)
  exact ⟨h.1, h.2.2.2⟩

/-! ## Composing start and stop (C2) -/

theorem cleanupTmux_store (w : World) (n : String) :
    (cleanupTmuxSession w n).store =
      if jsTruthy (getCfg w.store n "tmux-session") = true
      then unsetCfg (unsetCfg (unsetCfg (unsetCfg (unsetCfg w.store
        n "tmux-session") n "ai-pane") n "ai-agent") n "server-port") n "server-pane"
      else w.store := by
  by_cases h : jsTruthy (getCfg w.store n "tmux-session") = true
  · by_cases h2 : ((getCfg w.store n "tmux-session").getD "") ∈ w.sessions <;>
      simp [cleanupTmuxSession, h, h2]
  · simp [cleanupTmuxSession, h]

theorem sessionNameOf_truthy (n : String) :
    jsTruthy (some (sessionNameOf n)) = true := by
  simp only [jsTruthy, decide_eq_true_eq]
  intro h
  have h2 := congrArg String.data h
  rw [show sessionNameOf n = "baag-" ++ sanitizeSession n from rfl,
    strData_append] at h2
  simp at h2

theorem resolveBase_none (w : World) (cfg : Config) :
    resolveBaseBranch w cfg none = Except.ok (resolveBaseNoFlag w cfg) := by
  unfold resolveBaseBranch resolveBaseNoFlag
  dsimp only
  split_ifs <;> rfl

/-- `startWorktree` without a flag, reusing an existing branch. -/
theorem start_eq_existing (w : World) (cfg : Config) (env : StartEnv)
    (rawName : String) (hsplit : Bool)
    (hnc : worktreeExists w (applyBranchPfx cfg (normalizeName rawName)) = false)
    (hdir : normalizeName rawName ∉ w.dirs)
    (hb : branchExists w (applyBranchPfx cfg (normalizeName rawName)) = true) :
    startWorktree w cfg env rawName none hsplit =
      startFinish
        { w with registry := w.registry ++ [⟨w.wtDir ++ "/" ++ normalizeName rawName, gitHash, applyBranchPfx cfg (normalizeName rawName)⟩], dirs := w.dirs ++ [normalizeName rawName] }
        cfg env (normalizeName rawName) (w.wtDir ++ "/" ++ normalizeName rawName)
        (resolveBaseNoFlag w cfg) hsplit := by
  unfold startWorktree
  dsimp only
  rw [if_neg (fun hc => by rw [hnc] at hc; exact Bool.noConfusion hc),
    resolveBase_none]
  dsimp only
  rw [if_neg hdir, if_pos hb]

/-- `startWorktree` without a flag, branching off the resolved base. -/
theorem start_eq_newbranch (w : World) (cfg : Config) (env : StartEnv)
    (rawName : String) (hsplit : Bool)
    (hnc : worktreeExists w (applyBranchPfx cfg (normalizeName rawName)) = false)
    (hdir : normalizeName rawName ∉ w.dirs)
    (hb : branchExists w (applyBranchPfx cfg (normalizeName rawName)) = false)
    (hbase : branchExists w (resolveBaseNoFlag w cfg) = true) :
    startWorktree w cfg env rawName none hsplit =
      startFinish
        { w with branches := w.branches ++ [applyBranchPfx cfg (normalizeName rawName)], registry := w.registry ++ [⟨w.wtDir ++ "/" ++ normalizeName rawName, gitHash, applyBranchPfx cfg (normalizeName rawName)⟩], dirs := w.dirs ++ [normalizeName rawName] }
        cfg env (normalizeName rawName) (w.wtDir ++ "/" ++ normalizeName rawName)
        (resolveBaseNoFlag w cfg) hsplit := by
  unfold startWorktree
  dsimp only
  rw [if_neg (fun hc => by rw [hnc] at hc; exact Bool.noConfusion hc),
    resolveBase_none]
  dsimp only
  rw [if_neg hdir, if_neg (fun hc => by rw [hb] at hc; exact Bool.noConfusion hc),
    if_pos hbase]

theorem startFinish_exit (w1 : World) (cfg : Config) (env : StartEnv)
    (n path base : String) (hsplit : Bool) :
    (startFinish w1 cfg env n path base hsplit).2 = StartExit.ok := by
  unfold startFinish
  dsimp only
  by_cases h : env.tmuxClaudeOk = true <;> simp [h]

theorem startFinish_registry (w1 : World) (cfg : Config) (env : StartEnv)
    (n path base : String) (hsplit : Bool) :
    (startFinish w1 cfg env n path base hsplit).1.registry = w1.registry := by
  unfold startFinish
  dsimp only
  by_cases h : env.tmuxClaudeOk = true <;> simp only [h, if_true, if_false,
    Bool.false_eq_true, reduceIte]
  exact createTmux_keeps World.registry (fun _ _ => rfl) (fun _ _ => rfl)
    (fun _ _ => rfl) _ cfg env.tmuxEnv n path hsplit env.port

theorem startFinish_dirty (w1 : World) (cfg : Config) (env : StartEnv)
    (n path base : String) (hsplit : Bool) :
    (startFinish w1 cfg env n path base hsplit).1.dirty = w1.dirty := by
  unfold startFinish
  dsimp only
  by_cases h : env.tmuxClaudeOk = true <;> simp only [h, if_true, if_false,
    Bool.false_eq_true, reduceIte]
  exact createTmux_keeps World.dirty (fun _ _ => rfl) (fun _ _ => rfl)
    (fun _ _ => rfl) _ cfg env.tmuxEnv n path hsplit env.port

theorem startFinish_wtDir (w1 : World) (cfg : Config) (env : StartEnv)
    (n path base : String) (hsplit : Bool) :
    (startFinish w1 cfg env n path base hsplit).1.wtDir = w1.wtDir := by
  unfold startFinish
  dsimp only
  by_cases h : env.tmuxClaudeOk = true <;> simp only [h, if_true, if_false,
    Bool.false_eq_true, reduceIte]
  exact createTmux_keeps World.wtDir (fun _ _ => rfl) (fun _ _ => rfl)
    (fun _ _ => rfl) _ cfg env.tmuxEnv n path hsplit env.port

theorem startFinish_store (w1 : World) (cfg : Config) (env : StartEnv)
    (n path base : String) (hsplit : Bool)
    (hwin : ¬ ((jsTruthy cfg.serverCommand && jsTruthy env.port) = true ∧
      env.tmuxEnv.failAt = some 14)) :
    (startFinish w1 cfg env n path base hsplit).1.store =
        startStore w1.store n base w1.cwd ∨
    (startFinish w1 cfg env n path base hsplit).1.store =
        sessionStore cfg n (sessionNameOf n)
          (if (jsTruthy cfg.serverCommand && jsTruthy env.port) = true
           then serverStore n env.port (startStore w1.store n base w1.cwd)
           else startStore w1.store n base w1.cwd) := by
  unfold startFinish
  dsimp only
  by_cases h : env.tmuxClaudeOk = true <;> simp only [h, if_true, if_false,
    Bool.false_eq_true, reduceIte]
  · rcases createTmux_store _ cfg env.tmuxEnv n path hsplit env.port hwin with
      hc | ⟨-, hc⟩
    · exact Or.inl hc
    · exact Or.inr hc
  · exact Or.inl rfl

/-- `stop` on an existing non-dirty workspace: exit 0, the seven unsets
after the session cleanup, the registry entry filtered out. -/
theorem stop_ok_facts (w' : World) (n : String)
    (hex : worktreeExists w' n = true) (hnd : n ∉ w'.dirty) :
    (stopWorktree w' (some n) false).2 = false ∧
    (stopWorktree w' (some n) false).1.store =
      unsetCfg (unsetCfg (unsetCfg (unsetCfg (unsetCfg (unsetCfg (unsetCfg
        (cleanupTmuxSession w' n).store n "base") n "origin-dir")
        n "origin-branch") n "session-name") n "session-description")
        n "ai-pane") n "ai-agent" ∧
    (stopWorktree w' (some n) false).1.registry =
      (cleanupTmuxSession w' n).registry.filter
        (fun e => e.path ≠ (cleanupTmuxSession w' n).wtDir ++ "/" ++ n) := by
  unfold stopWorktree
  dsimp only
  rw [if_neg (fun hc => hc hex),
    if_neg (fun hc => hnd ((cleanupTmux_dirty w' n) ▸ hc.2))]
  refine ⟨rfl, ?_, ?_⟩ <;>
    dsimp only <;>
    split <;>
    first
      | rfl
      | (split <;> rfl)

/-- The seven `stop` unsets clear a fresh namespace written only by
`startWorktree`'s three metadata writes. -/
theorem finalStore_plain (st : Store) (n base cwd : String)
    (h : ∀ k, getCfg st n k = none) (k : String) :
    getCfg (unsetCfg (unsetCfg (unsetCfg (unsetCfg (unsetCfg (unsetCfg (unsetCfg (startStore st n base cwd) n "base") n "origin-dir") n "origin-branch") n "session-name") n "session-description") n "ai-pane") n "ai-agent") n k = none := by
  unfold startStore
  simp only [getCfg_unsetCfg, getCfg_setCfg]
  split_ifs <;> first | rfl | exact h k

set_option maxHeartbeats 1600000 in
/-- The cleanup unsets followed by the seven `stop` unsets clear a fresh
namespace written by `startWorktree` plus the session writes. -/
theorem finalStore_session (st : Store) (cfg : Config) (n sn base cwd : String)
    (h : ∀ k, getCfg st n k = none) (k : String) :
    getCfg (unsetCfg (unsetCfg (unsetCfg (unsetCfg (unsetCfg (unsetCfg (unsetCfg (unsetCfg (unsetCfg (unsetCfg (unsetCfg (unsetCfg (sessionStore cfg n sn (startStore st n base cwd)) n "tmux-session") n "ai-pane") n "ai-agent") n "server-port") n "server-pane") n "base") n "origin-dir") n "origin-branch") n "session-name") n "session-description") n "ai-pane") n "ai-agent") n k = none := by
  unfold sessionStore startStore
  simp only [getCfg_unsetCfg, getCfg_setCfg]
  split_ifs <;> first | rfl | exact h k

set_option maxHeartbeats 1600000 in
/-- As `finalStore_session`, with the two server writes included. -/
theorem finalStore_server (st : Store) (cfg : Config) (n sn base cwd : String)
    (port : Option String) (h : ∀ k, getCfg st n k = none) (k : String) :
    getCfg (unsetCfg (unsetCfg (unsetCfg (unsetCfg (unsetCfg (unsetCfg (unsetCfg (unsetCfg (unsetCfg (unsetCfg (unsetCfg (unsetCfg (sessionStore cfg n sn (serverStore n port (startStore st n base cwd))) n "tmux-session") n "ai-pane") n "ai-agent") n "server-port") n "server-pane") n "base") n "origin-dir") n "origin-branch") n "session-name") n "session-description") n "ai-pane") n "ai-agent") n k = none := by
  unfold sessionStore serverStore startStore
  simp only [getCfg_unsetCfg, getCfg_setCfg]
  split_ifs <;> first | rfl | exact h k

/-- C2 (amended): for a fresh name, `start(n)` immediately followed by
`stop(n)` leaves the Metadata Store without any key for `n` and the
registry without an entry at `wtDir/n`, provided the session
orchestration - if it runs - does not fail exactly between the server-key
writes and the session-key write (call index 14 with a server
configured); in that excluded window `start` leaves `server-port` and
`server-pane` keys that `stop` cannot see. -/
theorem start_stop_clears_metadata (w : World) (cfg : Config) (env : StartEnv)
    (rawName : String) (hsplit : Bool)
    (hstore : ∀ k, getCfg w.store (normalizeName rawName) k = none)
    (hnc : worktreeExists w (applyBranchPfx cfg (normalizeName rawName)) = false)
    (hdir : normalizeName rawName ∉ w.dirs)
    (hclean : normalizeName rawName ∉ w.dirty)
    (hbr : branchExists w (applyBranchPfx cfg (normalizeName rawName)) = true ∨
           branchExists w (resolveBaseNoFlag w cfg) = true)
    (hwin : ¬ ((jsTruthy cfg.serverCommand && jsTruthy env.port) = true ∧
      env.tmuxEnv.failAt = some 14)) :
    (startWorktree w cfg env rawName none hsplit).2 = StartExit.ok ∧
    (stopWorktree (startWorktree w cfg env rawName none hsplit).1
        (some (normalizeName rawName)) false).2 = false ∧
    (∀ k, getCfg (stopWorktree (startWorktree w cfg env rawName none hsplit).1
        (some (normalizeName rawName)) false).1.store (normalizeName rawName) k = none) ∧
    (∀ e ∈ (stopWorktree (startWorktree w cfg env rawName none hsplit).1
        (some (normalizeName rawName)) false).1.registry,
      e.path ≠ w.wtDir ++ "/" ++ normalizeName rawName) := by
  have hmain : ∀ (w1 : World), w1.store = w.store → w1.cwd = w.cwd →
      w1.registry = w.registry ++
        [⟨w.wtDir ++ "/" ++ normalizeName rawName, gitHash,
          applyBranchPfx cfg (normalizeName rawName)⟩] →
      w1.dirty = w.dirty → w1.wtDir = w.wtDir →
      (startFinish w1 cfg env (normalizeName rawName)
          (w.wtDir ++ "/" ++ normalizeName rawName)
          (resolveBaseNoFlag w cfg) hsplit).2 = StartExit.ok ∧
      (stopWorktree (startFinish w1 cfg env (normalizeName rawName)
          (w.wtDir ++ "/" ++ normalizeName rawName)
          (resolveBaseNoFlag w cfg) hsplit).1
          (some (normalizeName rawName)) false).2 = false ∧
      (∀ k, getCfg (stopWorktree (startFinish w1 cfg env (normalizeName rawName)
          (w.wtDir ++ "/" ++ normalizeName rawName)
          (resolveBaseNoFlag w cfg) hsplit).1
          (some (normalizeName rawName)) false).1.store (normalizeName rawName) k = none) ∧
      (∀ e ∈ (stopWorktree (startFinish w1 cfg env (normalizeName rawName)
          (w.wtDir ++ "/" ++ normalizeName rawName)
          (resolveBaseNoFlag w cfg) hsplit).1
          (some (normalizeName rawName)) false).1.registry,
        e.path ≠ w.wtDir ++ "/" ++ normalizeName rawName) := by
    intro w1 hw1store hw1cwd hw1reg hw1dirty hw1wt
    set n := normalizeName rawName with hn
    set base := resolveBaseNoFlag w cfg with hbase
    set r1 := (startFinish w1 cfg env n (w.wtDir ++ "/" ++ n) base hsplit).1 with hr1
    have hreg1 : r1.registry = w.registry ++
        [⟨w.wtDir ++ "/" ++ n, gitHash, applyBranchPfx cfg n⟩] := by
      rw [hr1, startFinish_registry, hw1reg]
    have hwt1 : r1.wtDir = w.wtDir := by rw [hr1, startFinish_wtDir, hw1wt]
    have hex : worktreeExists r1 n = true := by
      refine strContains_of_registry (e := ⟨w.wtDir ++ "/" ++ n, gitHash,
        applyBranchPfx cfg n⟩) ?_ ?_
      · rw [hreg1]; exact List.mem_append_right _ (List.mem_cons_self _ _)
      · rw [hwt1]
    have hnd : n ∉ r1.dirty := by
      rw [hr1, startFinish_dirty, hw1dirty]; exact hclean
    obtain ⟨hstop2, hstopstore, hstopreg⟩ := stop_ok_facts r1 n hex hnd
    refine ⟨startFinish_exit w1 cfg env n _ base hsplit, hstop2, ?_, ?_⟩
    · intro k
      rw [hstopstore, cleanupTmux_store]
      rcases startFinish_store w1 cfg env n (w.wtDir ++ "/" ++ n) base hsplit hwin with
        hst | hst
      · rw [← hr1, hw1store, hw1cwd] at hst
        have htm : getCfg (startStore w.store n base w.cwd) n "tmux-session" = none := by
          unfold startStore
          rw [getCfg_setCfg, if_neg (by decide), getCfg_setCfg, if_neg (by decide),
            getCfg_setCfg, if_neg (by decide)]
          exact hstore _
        rw [hst, htm, if_neg (by decide)]
        exact finalStore_plain w.store n base w.cwd hstore k
      · rw [← hr1, hw1store, hw1cwd] at hst
        have htm : ∀ X, getCfg (sessionStore cfg n (sessionNameOf n) X)
            n "tmux-session" = some (sessionNameOf n) := by
          intro X
          unfold sessionStore
          rw [getCfg_setCfg, if_neg (by decide), getCfg_setCfg, if_neg (by decide),
            getCfg_setCfg, if_pos rfl]
        rw [hst, htm, if_pos (sessionNameOf_truthy n)]
        by_cases hsv : (jsTruthy cfg.serverCommand && jsTruthy env.port) = true
        · rw [if_pos hsv]
          exact finalStore_server w.store cfg n (sessionNameOf n) base w.cwd
            env.port hstore k
        · rw [if_neg hsv]
          exact finalStore_session w.store cfg n (sessionNameOf n) base w.cwd
            hstore k
    · intro e he
      rw [hstopreg] at he
      have h2 := (List.mem_filter.mp he).2
      have hp : e.path ≠ (cleanupTmuxSession r1 n).wtDir ++ "/" ++ n := by
        simpa using h2
      rw [cleanupTmux_wtDir, hwt1] at hp
      exact hp
  by_cases hb2 : branchExists w (applyBranchPfx cfg (normalizeName rawName)) = true
  · rw [start_eq_existing w cfg env rawName hsplit hnc hdir hb2]
    exact hmain _ rfl rfl rfl rfl rfl
  · have hb2f : branchExists w (applyBranchPfx cfg (normalizeName rawName)) = false := by
      revert hb2
      cases branchExists w (applyBranchPfx cfg (normalizeName rawName)) <;> simp
    rcases hbr with hb | hbase
    · exact absurd hb hb2
    · rw [start_eq_newbranch w cfg env rawName hsplit hnc hdir hb2f hbase]
      exact hmain _ rfl rfl rfl rfl rfl

/-- C9 witness: a run whose fifth call (the window split) fails. -/
theorem tmux_failure_teardown_witness :
    (createTmuxSession c1World noCfg ⟨some 4⟩ "auth" "/r/.baag/worktrees/auth"
        false none).2 = false ∧
    sessionNameOf "auth" ∉ (createTmuxSession c1World noCfg ⟨some 4⟩ "auth"
        "/r/.baag/worktrees/auth" false none).1.sessions ∧
    (createTmuxSession c1World noCfg ⟨some 4⟩ "auth"
        "/r/.baag/worktrees/auth" false none).1.cwd = "/r/.baag/worktrees/auth" := by
  have h := tmux_failure_teardown c1World noCfg ⟨some 4⟩ "auth"
    "/r/.baag/worktrees/auth" false none (by decide)
  exact ⟨by decide, h.1, h.2⟩


/-- C2 witness: a failure-free run with a dev server on a fresh
repository: `start auth` exits ok and the following `stop auth` leaves no
`worktree.auth.*` key at all. -/
theorem start_stop_clears_metadata_witness :
    (startWorktree c2World c2Cfg c2EnvGood "auth" none false).2 = StartExit.ok ∧
    (∀ k, getCfg (stopWorktree
        (startWorktree c2World c2Cfg c2EnvGood "auth" none false).1
        (some (normalizeName "auth")) false).1.store (normalizeName "auth") k = none) ∧
    (stopWorktree (startWorktree c2World c2Cfg c2EnvGood "auth" none false).1
        (some (normalizeName "auth")) false).2 = false := by
  have h := start_stop_clears_metadata c2World c2Cfg c2EnvGood "auth" false
    (fun _ => rfl) (by decide) (by decide) (by decide) (Or.inr (by decide))
    (by decide)
  exact ⟨h.1, h.2.2.1, h.2.1⟩

/-- C2 counterexample: if the session orchestration fails at the
select-pane call (index 14, after the server keys are written but before
the tmux-session key), `start auth; stop auth` leaves the
`server-port` and `server-pane` keys behind. -/
theorem start_stop_server_leftover_counterexample :
    getCfg (stopWorktree (startWorktree c2World c2Cfg c2EnvBad "auth" none false).1
        (some "auth") false).1.store "auth" "server-port" = some "3000" ∧
    getCfg (stopWorktree (startWorktree c2World c2Cfg c2EnvBad "auth" none false).1
        (some "auth") false).1.store "auth" "server-pane" = some "2" := by
  decide

/-! ## Helper lemmas: cleanup task detection -/

theorem suffix_trans_len {l1 l2 l : List Char} (h1 : l1 <:+ l) (h2 : l2 <:+ l)
    (hl : l1.length ≤ l2.length) : l1 <:+ l2 := by
  have hp := List.prefix_of_prefix_length_le (List.reverse_prefix.mpr h1)
    (List.reverse_prefix.mpr h2) (by simpa using hl)
  exact List.reverse_prefix.mp hp

theorem takeWhile_append_cons {α : Type} (p : α → Bool) (l1 : List α) (c : α)
    (t : List α) (h1 : ∀ a ∈ l1, p a = true) (hc : p c = false) :
    (l1 ++ c :: t).takeWhile p = l1 := by
  induction l1 with
  | nil => simp [List.takeWhile_cons, hc]
  | cons a l ih =>
    have ha := h1 a (List.mem_cons_self a l)
    simp [List.takeWhile_cons, ha,
      ih (fun b hb => h1 b (List.mem_cons_of_mem a hb))]

/-- `path.basename` of `x ++ "/" ++ d` is `d` when `d` has no slash. -/
theorem basename_exact (x d : String) (hd : '/' ∉ d.data) :
    basename (x ++ "/" ++ d) = d := by
  unfold basename
  have hdata : (x ++ "/" ++ d).data.reverse =
      d.data.reverse ++ '/' :: x.data.reverse := by
    simp [strData_append, List.reverse_append]
  rw [hdata, takeWhile_append_cons _ _ _ _
    (fun a ha => by
      have : a ∈ d.data := List.mem_reverse.mp ha
      simp only [decide_eq_true_eq]
      exact fun hcon => hd (hcon ▸ this))
    (by simp), List.reverse_reverse]

/-- The workspace root is a substring of any path below it. -/
theorem strContains_append (a b : String) : strContains (a ++ b) a = true := by
  simp only [strContains, decide_eq_true_eq, strData_append]
  exact ⟨[], b.data, by simp⟩

/-- The key regex captures the whole name on a real `tmux-session` key. -/
theorem tmuxKeyMatch_self (n : String) :
    tmuxKeyMatch n "tmux-session" = some n := by
  have hdata : ("worktree." ++ n ++ "." ++ "tmux-session").data =
      "worktree.".data ++ (n.data ++ ".tmux-session".data) := by
    simp [strData_append]
  unfold tmuxKeyMatch
  rw [if_pos]
  · have hdrop : ("worktree." ++ n ++ "." ++ "tmux-session").data.drop 9 =
        n.data ++ ".tmux-session".data := by
      rw [hdata]
      exact List.drop_left "worktree.".data _
    have hlen : ("worktree." ++ n ++ "." ++ "tmux-session").data.length - 9 - 13 =
        n.data.length := by
      rw [hdata]
      simp
    rw [hdrop, hlen, List.take_left]
  · rw [decide_eq_true_eq, hdata]
    exact ⟨"worktree.".data ++ n.data, by simp⟩

/-- None of the other nine keys the tool ever writes matches the
`tmux-session` key regex, whatever the workspace name. -/
theorem tmuxKeyMatch_other (n : String) {k : String} (hk : k ∈ tenFields)
    (hne : k ≠ "tmux-session") : tmuxKeyMatch n k = none := by
  have hsk : ("." ++ k).data <:+ ("worktree." ++ n ++ "." ++ k).data :=
    ⟨("worktree." ++ n).data, by simp [strData_append]⟩
  have hP : ¬ (".tmux-session".data <:+ ("worktree." ++ n ++ "." ++ k).data) := by
    intro hsuf
    fin_cases hk
    · exact absurd (suffix_trans_len hsk hsuf (by decide)) (by decide)
    · exact absurd (suffix_trans_len hsk hsuf (by decide)) (by decide)
    · exact absurd (suffix_trans_len hsuf hsk (by decide)) (by decide)
    · exact hne rfl
    · exact absurd (suffix_trans_len hsk hsuf (by decide)) (by decide)
    · exact absurd (suffix_trans_len hsuf hsk (by decide)) (by decide)
    · exact absurd (suffix_trans_len hsk hsuf (by decide)) (by decide)
    · exact absurd (suffix_trans_len hsk hsuf (by decide)) (by decide)
    · exact absurd (suffix_trans_len hsk hsuf (by decide)) (by decide)
    · exact absurd (suffix_trans_len hsk hsuf (by decide)) (by decide)
  unfold tmuxKeyMatch
  rw [if_neg (by simpa using hP)]
theorem contains_of_mem {l : List String} {x : String} (h : x ∈ l) :
    l.contains x = true := by simpa using h

theorem mem_of_contains {l : List String} {x : String} (h : l.contains x = true) :
    x ∈ l := by simpa using h

theorem cleanupFold_registry (ts : List CleanupTask) : ∀ w : World,
    (List.foldl applyCleanupTask w ts).registry = w.registry := by
  induction ts with
  | nil => intro w; rfl
  | cons t ts ih =>
    intro w
    rw [List.foldl_cons, ih]
    cases htk : t.kind <;> simp [applyCleanupTask, htk]

theorem cleanupFold_wtDir (ts : List CleanupTask) : ∀ w : World,
    (List.foldl applyCleanupTask w ts).wtDir = w.wtDir := by
  induction ts with
  | nil => intro w; rfl
  | cons t ts ih =>
    intro w
    rw [List.foldl_cons, ih]
    cases htk : t.kind <;> simp [applyCleanupTask, htk]

theorem cleanupFold_sessions (ts : List CleanupTask) : ∀ w : World,
    (List.foldl applyCleanupTask w ts).sessions = w.sessions := by
  induction ts with
  | nil => intro w; rfl
  | cons t ts ih =>
    intro w
    rw [List.foldl_cons, ih]
    cases htk : t.kind <;> simp [applyCleanupTask, htk]

theorem cleanupFold_dirs_mem (ts : List CleanupTask) : ∀ (w : World) (d : String),
    d ∈ (List.foldl applyCleanupTask w ts).dirs →
    d ∈ w.dirs ∧ ∀ t ∈ ts, t.kind = TaskKind.directory → d ≠ t.name := by
  induction ts with
  | nil =>
    intro w d hd
    exact ⟨hd, fun t ht => absurd ht (List.not_mem_nil t)⟩
  | cons t ts ih =>
    intro w d hd
    rw [List.foldl_cons] at hd
    obtain ⟨h1, h2⟩ := ih _ d hd
    cases htk : t.kind
    case directory =>
      rw [show (applyCleanupTask w t).dirs = w.dirs.filter (fun d => d ≠ t.name) by
        simp [applyCleanupTask, htk]] at h1
      rw [List.mem_filter] at h1
      refine ⟨h1.1, fun t' ht' hk' => ?_⟩
      rcases List.mem_cons.mp ht' with rfl | hmem
      · simpa using h1.2
      · exact h2 t' hmem hk'
    case config =>
      rw [show (applyCleanupTask w t).dirs = w.dirs by simp [applyCleanupTask, htk]] at h1
      refine ⟨h1, fun t' ht' hk' => ?_⟩
      rcases List.mem_cons.mp ht' with rfl | hmem
      · rw [htk] at hk'; cases hk'
      · exact h2 t' hmem hk'
    case tmuxConfig =>
      rw [show (applyCleanupTask w t).dirs = w.dirs by simp [applyCleanupTask, htk]] at h1
      refine ⟨h1, fun t' ht' hk' => ?_⟩
      rcases List.mem_cons.mp ht' with rfl | hmem
      · rw [htk] at hk'; cases hk'
      · exact h2 t' hmem hk'

theorem cleanupFold_dirs_mem_of (ts : List CleanupTask) : ∀ (w : World) (d : String),
    d ∈ w.dirs → (∀ t ∈ ts, t.kind = TaskKind.directory → d ≠ t.name) →
    d ∈ (List.foldl applyCleanupTask w ts).dirs := by
  induction ts with
  | nil => intro w d hd _; exact hd
  | cons t ts ih =>
    intro w d hd hno
    rw [List.foldl_cons]
    refine ih _ d ?_ (fun t' ht' => hno t' (List.mem_cons_of_mem t ht'))
    cases htk : t.kind
    case directory =>
      rw [show (applyCleanupTask w t).dirs = w.dirs.filter (fun d => d ≠ t.name) by
        simp [applyCleanupTask, htk]]
      rw [List.mem_filter]
      exact ⟨hd, by simpa using hno t (List.mem_cons_self t ts) htk⟩
    case config =>
      rw [show (applyCleanupTask w t).dirs = w.dirs by simp [applyCleanupTask, htk]]
      exact hd
    case tmuxConfig =>
      rw [show (applyCleanupTask w t).dirs = w.dirs by simp [applyCleanupTask, htk]]
      exact hd

theorem mem_unsetFold (fields : List String) : ∀ (st : Store) (n : String)
    (e : (String × String) × String),
    e ∈ List.foldl (fun st f => unsetCfg st n f) st fields →
    e ∈ st ∧ (e.1.1 = n → e.1.2 ∉ fields) := by
  induction fields with
  | nil =>
    intro st n e he
    exact ⟨he, fun _ => List.not_mem_nil _⟩
  | cons f fs ih =>
    intro st n e he
    rw [List.foldl_cons] at he
    obtain ⟨h1, h2⟩ := ih _ n e he
    obtain ⟨h3, h4⟩ := mem_unsetCfg.mp h1
    refine ⟨h3, fun hn hmem => ?_⟩
    rcases List.mem_cons.mp hmem with hf | hfs
    · exact h4 (Prod.ext hn hf)
    · exact h2 hn hfs

theorem cleanupFold_store_mem (ts : List CleanupTask) : ∀ (w : World)
    (e : (String × String) × String),
    e ∈ (List.foldl applyCleanupTask w ts).store →
    e ∈ w.store ∧ ∀ t ∈ ts,
      (t.kind = TaskKind.config → e.1.1 = t.name → e.1.2 ∉ eightFields) ∧
      (t.kind = TaskKind.tmuxConfig → ¬ (e.1.1 = t.name ∧ e.1.2 = "tmux-session")) := by
  induction ts with
  | nil =>
    intro w e he
    exact ⟨he, fun t ht => absurd ht (List.not_mem_nil t)⟩
  | cons t ts ih =>
    intro w e he
    rw [List.foldl_cons] at he
    obtain ⟨h1, h2⟩ := ih _ e he
    cases htk : t.kind
    case directory =>
      rw [show (applyCleanupTask w t).store = w.store by simp [applyCleanupTask, htk]] at h1
      refine ⟨h1, fun t' ht' => ?_⟩
      rcases List.mem_cons.mp ht' with rfl | hmem
      · exact ⟨fun hk' => TaskKind.noConfusion (htk.symm.trans hk'),
          fun hk' => TaskKind.noConfusion (htk.symm.trans hk')⟩
      · exact h2 t' hmem
    case config =>
      rw [show (applyCleanupTask w t).store =
          List.foldl (fun st f => unsetCfg st t.name f) w.store eightFields by
        simp [applyCleanupTask, htk]] at h1
      obtain ⟨h3, h4⟩ := mem_unsetFold eightFields w.store t.name e h1
      refine ⟨h3, fun t' ht' => ?_⟩
      rcases List.mem_cons.mp ht' with rfl | hmem
      · exact ⟨fun _ => h4, fun hk' => TaskKind.noConfusion (htk.symm.trans hk')⟩
      · exact h2 t' hmem
    case tmuxConfig =>
      rw [show (applyCleanupTask w t).store = unsetCfg w.store t.name "tmux-session" by
        simp [applyCleanupTask, htk]] at h1
      obtain ⟨h3, h4⟩ := mem_unsetCfg.mp h1
      refine ⟨h3, fun t' ht' => ?_⟩
      rcases List.mem_cons.mp ht' with rfl | hmem
      · exact ⟨fun hk' => TaskKind.noConfusion (htk.symm.trans hk'),
          fun _ hcon => h4 (Prod.ext hcon.1 hcon.2)⟩
      · exact h2 t' hmem

theorem mem_dedupAux (l : List String) : ∀ (acc : List String) (x : String),
    (x ∈ l.foldl (fun acc y => if y ∈ acc then acc else acc ++ [y]) acc) ↔
      x ∈ acc ∨ x ∈ l := by
  induction l with
  | nil => intro acc x; simp
  | cons y ys ih =>
    intro acc x
    rw [List.foldl_cons]
    by_cases hy : y ∈ acc
    · rw [if_pos hy, ih]
      simp only [List.mem_cons]
      constructor
      · rintro (h | h)
        · exact Or.inl h
        · exact Or.inr (Or.inr h)
      · rintro (h | rfl | h)
        · exact Or.inl h
        · exact Or.inl hy
        · exact Or.inr h
    · rw [if_neg hy, ih]
      simp only [List.mem_append, List.mem_cons, List.mem_singleton]
      tauto

theorem mem_dedupFirst {l : List String} {x : String} :
    x ∈ dedupFirst l ↔ x ∈ l := by
  unfold dedupFirst
  rw [mem_dedupAux]
  simp

theorem mem_storeNamespaces {st : Store} {n : String} :
    n ∈ storeNamespaces st ↔ ∃ e ∈ st, nsHead e.1.1 = n := by
  unfold storeNamespaces
  rw [mem_dedupFirst, List.mem_map]

theorem worktreeExists_congr {w v : World} (hreg : w.registry = v.registry)
    (hwt : w.wtDir = v.wtDir) (n : String) :
    worktreeExists w n = worktreeExists v n := by
  unfold worktreeExists
  rw [hreg, hwt]

theorem activeNames_congr {w v : World} (hreg : w.registry = v.registry)
    (hwt : w.wtDir = v.wtDir) :
    activeWorktreeNames w = activeWorktreeNames v := by
  unfold activeWorktreeNames
  rw [hreg, hwt]

theorem cleanup_of_no_tasks {w : World} {c : Bool} (h : cleanupTasks w = []) :
    cleanupWorktrees w c = w := by
  unfold cleanupWorktrees
  dsimp only
  rw [h]
  rfl

theorem cleanup_noconfirm (w : World) : cleanupWorktrees w false = w := by
  unfold cleanupWorktrees
  dsimp only
  by_cases h : (cleanupTasks w).isEmpty = true
  · rw [if_pos h]
  · rw [if_neg h, if_pos (fun hc => Bool.noConfusion hc)]

theorem cleanup_confirm_eq {w : World} (h : ¬ cleanupTasks w = []) :
    cleanupWorktrees w true = List.foldl applyCleanupTask w (cleanupTasks w) := by
  unfold cleanupWorktrees
  dsimp only
  rw [if_neg (by simpa using h), if_neg (fun hc => hc rfl)]
theorem kind_of_mem_configTasks {w : World} {t : CleanupTask}
    (h : t ∈ configCleanupTasks w) : t.kind = TaskKind.config := by
  obtain ⟨n, -, hf⟩ := List.mem_filterMap.mp h
  by_cases hc : worktreeExists w n = true
  · rw [if_pos hc] at hf; exact Option.noConfusion hf
  · rw [if_neg hc] at hf
    rw [← Option.some.inj hf]

theorem kind_of_mem_tmuxTasks {w : World} {t : CleanupTask}
    (h : t ∈ tmuxCleanupTasks w) : t.kind = TaskKind.tmuxConfig := by
  obtain ⟨e, -, hf⟩ := List.mem_filterMap.mp h
  cases hm : tmuxKeyMatch e.1.1 e.1.2 with
  | none =>
    simp only [hm] at hf
    exact Option.noConfusion hf
  | some wt =>
    simp only [hm] at hf
    split_ifs at hf
    all_goals first
    | exact Option.noConfusion hf
    | rw [← Option.some.inj hf]

theorem mem_dirTasks_iff {w : World} {d : String} (hd : d ∈ w.dirs) :
    ((⟨TaskKind.directory, d, w.wtDir ++ "/" ++ d, ""⟩ : CleanupTask) ∈
      dirCleanupTasks w) ↔ (activeWorktreeNames w).contains d = false := by
  constructor
  · intro h
    obtain ⟨d2, hd2, hf⟩ := List.mem_filterMap.mp h
    by_cases hc : (activeWorktreeNames w).contains d2 = true
    · rw [if_pos hc] at hf; exact Option.noConfusion hf
    · rw [if_neg hc] at hf
      have hdd : d2 = d := congrArg CleanupTask.name (Option.some.inj hf)
      rw [← hdd]
      cases hb : (activeWorktreeNames w).contains d2
      · rfl
      · exact absurd hb hc
  · intro h
    refine List.mem_filterMap.mpr ⟨d, hd, ?_⟩
    rw [if_neg (fun hc => by rw [h] at hc; exact Bool.noConfusion hc)]

theorem name_not_active_of_mem_dirTasks {w : World} {t : CleanupTask}
    (h : t ∈ dirCleanupTasks w) :
    (activeWorktreeNames w).contains t.name = false := by
  obtain ⟨d2, hd2, hf⟩ := List.mem_filterMap.mp h
  by_cases hc : (activeWorktreeNames w).contains d2 = true
  · rw [if_pos hc] at hf; exact Option.noConfusion hf
  · rw [if_neg hc] at hf
    have hdd : t.name = d2 := (congrArg CleanupTask.name (Option.some.inj hf)).symm
    rw [hdd]
    cases hb : (activeWorktreeNames w).contains d2
    · rfl
    · exact absurd hb hc

theorem dir_task_mem {w : World} {t : CleanupTask} (h : t ∈ cleanupTasks w)
    (hk : t.kind = TaskKind.directory) : t ∈ dirCleanupTasks w := by
  unfold cleanupTasks at h
  rcases List.mem_append.mp h with h1 | h2
  · rcases List.mem_append.mp h1 with ha | hb
    · exact ha
    · rw [kind_of_mem_configTasks hb] at hk; exact TaskKind.noConfusion hk
  · rw [kind_of_mem_tmuxTasks h2] at hk; exact TaskKind.noConfusion hk

/-- C3 (amended): after one confirmed `cleanup` run, a second run finds
zero tasks and changes nothing - provided the Metadata Store holds only
the ten keys the tool itself writes, workspace names are dot-free, and
no orphaned namespace holds a `server-port`/`server-pane` key; the
`config` task's unset list omits those two keys, so such a namespace
would be re-detected forever. -/
theorem cleanup_idempotent (w : World)
    (Hdot : ∀ e ∈ w.store, nsHead e.1.1 = e.1.1)
    (Hkeys : ∀ e ∈ w.store, e.1.2 ∈ tenFields)
    (Hserver : ∀ e ∈ w.store,
      e.1.2 = "server-port" ∨ e.1.2 = "server-pane" →
        worktreeExists w e.1.1 = true) :
    cleanupTasks (cleanupWorktrees w true) = [] ∧
    cleanupWorktrees (cleanupWorktrees w true) true = cleanupWorktrees w true := by
  by_cases h0 : cleanupTasks w = []
  · rw [cleanup_of_no_tasks h0]
    exact ⟨h0, cleanup_of_no_tasks h0⟩
  · have hw1 := cleanup_confirm_eq h0
    set w1 := List.foldl applyCleanupTask w (cleanupTasks w) with hw1d
    rw [hw1]
    have hreg : w1.registry = w.registry := cleanupFold_registry _ w
    have hwt : w1.wtDir = w.wtDir := cleanupFold_wtDir _ w
    have hsess : w1.sessions = w.sessions := cleanupFold_sessions _ w
    have hex := worktreeExists_congr hreg hwt
    have hactive : activeWorktreeNames w1 = activeWorktreeNames w :=
      activeNames_congr hreg hwt
    have hdir : dirCleanupTasks w1 = [] := by
      refine List.filterMap_eq_nil_iff.mpr ?_
      intro d hd
      obtain ⟨hdw, hno⟩ := cleanupFold_dirs_mem _ w d hd
      have hcon : (activeWorktreeNames w).contains d = true := by
        cases hc : (activeWorktreeNames w).contains d
        · exfalso
          have htask := (mem_dirTasks_iff hdw).mpr hc
          have hmem : (⟨TaskKind.directory, d, w.wtDir ++ "/" ++ d, ""⟩ :
              CleanupTask) ∈ cleanupTasks w := by
            unfold cleanupTasks
            exact List.mem_append_left _ (List.mem_append_left _ htask)
          exact (hno _ hmem rfl) rfl
        · rfl
      have hcon1 : (activeWorktreeNames w1).contains d = true := by
        rw [hactive]; exact hcon
      rw [if_pos hcon1]
    have hconfig : configCleanupTasks w1 = [] := by
      refine List.filterMap_eq_nil_iff.mpr ?_
      intro nn hnn
      obtain ⟨e, he1, he2⟩ := mem_storeNamespaces.mp hnn
      obtain ⟨hew, hfor⟩ := cleanupFold_store_mem _ w e he1
      have hnsd := Hdot e hew
      have hnn2 : nn = e.1.1 := by rw [← he2, hnsd]
      have hexw : worktreeExists w e.1.1 = true := by
        cases hc : worktreeExists w e.1.1
        · exfalso
          have hns : e.1.1 ∈ storeNamespaces w.store :=
            mem_storeNamespaces.mpr ⟨e, hew, hnsd⟩
          have htask : (⟨TaskKind.config, e.1.1, "", ""⟩ : CleanupTask) ∈
              configCleanupTasks w := by
            refine List.mem_filterMap.mpr ⟨e.1.1, hns, ?_⟩
            rw [if_neg (fun hcc => by rw [hc] at hcc; exact Bool.noConfusion hcc)]
          have hmem : (⟨TaskKind.config, e.1.1, "", ""⟩ : CleanupTask) ∈
              cleanupTasks w := by
            unfold cleanupTasks
            exact List.mem_append_left _ (List.mem_append_right _ htask)
          have hnotin := (hfor _ hmem).1 rfl rfl
          have h10 : e.1.2 ∈ eightFields ++ ["server-port", "server-pane"] :=
            Hkeys e hew
          rcases List.mem_append.mp h10 with h8 | hsv
          · exact hnotin h8
          · have hsv2 : e.1.2 = "server-port" ∨ e.1.2 = "server-pane" := by
              simpa using hsv
            have := Hserver e hew hsv2
            rw [hc] at this
            exact Bool.noConfusion this
        · rfl
      have hc1 : worktreeExists w1 nn = true := by
        rw [hex nn, hnn2]; exact hexw
      rw [if_pos hc1]
    have htmux : tmuxCleanupTasks w1 = [] := by
      refine List.filterMap_eq_nil_iff.mpr ?_
      intro e he1
      obtain ⟨hew, hfor⟩ := cleanupFold_store_mem _ w e he1
      by_cases hk : e.1.2 = "tmux-session"
      · have hcont : w.sessions.contains (firstWord e.2) = true := by
          cases hc : w.sessions.contains (firstWord e.2)
          · exfalso
            have htask : (⟨TaskKind.tmuxConfig, e.1.1, "", firstWord e.2⟩ :
                CleanupTask) ∈ tmuxCleanupTasks w := by
              refine List.mem_filterMap.mpr ⟨e, hew, ?_⟩
              simp only [hk, tmuxKeyMatch_self]
              rw [if_neg (fun hcc => by rw [hc] at hcc; exact Bool.noConfusion hcc)]
            have hmem : (⟨TaskKind.tmuxConfig, e.1.1, "", firstWord e.2⟩ :
                CleanupTask) ∈ cleanupTasks w := by
              unfold cleanupTasks
              exact List.mem_append_right _ htask
            exact (hfor _ hmem).2 rfl ⟨rfl, hk⟩
          · rfl
        have hexw : worktreeExists w e.1.1 = true := by
          cases hc : worktreeExists w e.1.1
          · exfalso
            have htask : (⟨TaskKind.tmuxConfig, e.1.1, "", firstWord e.2⟩ :
                CleanupTask) ∈ tmuxCleanupTasks w := by
              refine List.mem_filterMap.mpr ⟨e, hew, ?_⟩
              simp only [hk, tmuxKeyMatch_self]
              rw [if_pos hcont,
                if_neg (fun hcc => by rw [hc] at hcc; exact Bool.noConfusion hcc)]
            have hmem : (⟨TaskKind.tmuxConfig, e.1.1, "", firstWord e.2⟩ :
                CleanupTask) ∈ cleanupTasks w := by
              unfold cleanupTasks
              exact List.mem_append_right _ htask
            exact (hfor _ hmem).2 rfl ⟨rfl, hk⟩
          · rfl
        simp only [hk, tmuxKeyMatch_self]
        rw [if_pos (by rw [hsess]; exact hcont),
          if_pos (by rw [hex]; exact hexw)]
      · dsimp only
        rw [tmuxKeyMatch_other e.1.1 (Hkeys e hew) hk]
    have hall : cleanupTasks w1 = [] := by
      unfold cleanupTasks
      rw [hdir, hconfig, htmux]
      rfl
    exact ⟨hall, cleanup_of_no_tasks hall⟩
/-- C3 witness: a store holding one orphaned `base` key; the confirmed
run reclaims it and the second run finds zero tasks. -/
theorem cleanup_idempotent_witness :
    cleanupTasks (cleanupWorktrees c3WorldGood true) = [] ∧
    cleanupWorktrees (cleanupWorktrees c3WorldGood true) true =
      cleanupWorktrees c3WorldGood true :=
  cleanup_idempotent c3WorldGood (by decide) (by decide) (by decide)

/-- C3 counterexample: an orphaned `server-port` key survives the
confirmed run untouched (the config task unsets only eight other keys),
so the second run re-detects the same config task instead of finding
zero. -/
theorem cleanup_not_idempotent_counterexample :
    (cleanupTasks (cleanupWorktrees c3World true)).length = 1 ∧
    cleanupTasks (cleanupWorktrees c3World true) ≠ [] := by decide

theorem strContains_append2 (a b c : String) :
    strContains (a ++ b ++ c) a = true := by
  simp only [strContains, decide_eq_true_eq, strData_append]
  exact ⟨[], b.data ++ c.data, by simp⟩

/-- C4 (amended): a directory entry under the workspace root is
classified as orphaned exactly when no registry path containing the root
has it as basename (not: when no working tree is linked at exactly
`root/d`); without confirmation nothing at all is removed; and a
directory whose exact path `root/d` is registered survives a confirmed
run. -/
theorem cleanup_dir_classification (w : World) (d : String) (hd : d ∈ w.dirs) :
    ((⟨TaskKind.directory, d, w.wtDir ++ "/" ++ d, ""⟩ : CleanupTask) ∈
        cleanupTasks w ↔
      ¬ ∃ e ∈ w.registry, strContains e.path w.wtDir = true ∧
        basename e.path = d) ∧
    cleanupWorktrees w false = w ∧
    (∀ e ∈ w.registry, e.path = w.wtDir ++ "/" ++ d → '/' ∉ d.data →
      d ∈ (cleanupWorktrees w true).dirs) := by
  have hiff2 : d ∈ activeWorktreeNames w ↔
      ∃ e ∈ w.registry, strContains e.path w.wtDir = true ∧
        basename e.path = d := by
    unfold activeWorktreeNames
    rw [List.mem_filterMap]
    constructor
    · rintro ⟨e, he, hf⟩
      by_cases hc : strContains e.path w.wtDir = true
      · rw [if_pos hc] at hf
        exact ⟨e, he, hc, Option.some.inj hf⟩
      · rw [if_neg hc] at hf
        exact Option.noConfusion hf
    · rintro ⟨e, he, hc, hb⟩
      exact ⟨e, he, by rw [if_pos hc, hb]⟩
  refine ⟨?_, cleanup_noconfirm w, ?_⟩
  · constructor
    · intro h
      have h1 := dir_task_mem h rfl
      have h2 := (mem_dirTasks_iff hd).mp h1
      intro hex
      rw [contains_of_mem (hiff2.mpr hex)] at h2
      exact Bool.noConfusion h2
    · intro hnex
      have h2 : (activeWorktreeNames w).contains d = false := by
        cases hc : (activeWorktreeNames w).contains d
        · rfl
        · exact absurd (hiff2.mp (mem_of_contains hc)) hnex
      have h1 := (mem_dirTasks_iff hd).mpr h2
      unfold cleanupTasks
      exact List.mem_append_left _ (List.mem_append_left _ h1)
  · intro e he hpath hslash
    have hb : basename e.path = d := by
      rw [hpath]; exact basename_exact w.wtDir d hslash
    have hc : strContains e.path w.wtDir = true := by
      rw [hpath]; exact strContains_append2 w.wtDir "/" d
    have hactive : d ∈ activeWorktreeNames w := hiff2.mpr ⟨e, he, hc, hb⟩
    by_cases h0 : cleanupTasks w = []
    · rw [cleanup_of_no_tasks h0]; exact hd
    · rw [cleanup_confirm_eq h0]
      refine cleanupFold_dirs_mem_of _ w d hd ?_
      intro t ht htk
      have h1 := dir_task_mem ht htk
      have h2 := name_not_active_of_mem_dirTasks h1
      intro hdn
      rw [← hdn, contains_of_mem hactive] at h2
      exact Bool.noConfusion h2

/-- C4 witness: the registered workspace `foo` of `c1World` is never
classified or removed, and nothing happens without confirmation. -/
theorem cleanup_dir_classification_witness :
    ((⟨TaskKind.directory, "foo", c1World.wtDir ++ "/" ++ "foo", ""⟩ :
        CleanupTask) ∈ cleanupTasks c1World ↔
      ¬ ∃ e ∈ c1World.registry, strContains e.path c1World.wtDir = true ∧
        basename e.path = "foo") ∧
    cleanupWorktrees c1World false = c1World ∧
    (∀ e ∈ c1World.registry, e.path = c1World.wtDir ++ "/" ++ "foo" →
      '/' ∉ "foo".data → "foo" ∈ (cleanupWorktrees c1World true).dirs) :=
  cleanup_dir_classification c1World "foo" (by decide)

/-- C4 counterexample: no working tree is linked at `root/foo`, yet the
directory `foo` is not classified as orphaned (and survives a confirmed
run), because a worktree at the nested path `root/x/foo` contains the
root as a substring and has basename `foo`. -/
theorem cleanup_dir_nested_counterexample :
    (∀ e ∈ c4World.registry, e.path ≠ c4World.wtDir ++ "/" ++ "foo") ∧
    dirCleanupTasks c4World = [] ∧
    (cleanupWorktrees c4World true).dirs = ["foo"] := by decide
end Baag
